import Mathlib

/-!
Verification of the Continent-Generator terrain pipeline against its
natural-language specification.

The Python sources are shallowly embedded: 2-D rasters become functions
`ℕ → ℕ → ℚ` (or `Bool`) together with explicit height/width bounds,
float32 arithmetic is modelled exactly over `ℚ`, numpy's `argsort` is
modelled as a stable sort on `(value, flat index)` keys, and fallible code
returns `Except`/`Option`.  Library float intrinsics whose results are
irrational (`np.hypot`, fractional `np.power`) are taken as function
parameters, and theorems about them quantify over every such function.
-/

namespace Spec2Proof

/-- The canonical D8 direction order from `terrain/hydrology.py` /
`terrain/geomorph.py` (`_DIRECTIONS_8`). -/
def DIRECTIONS8 : List (ℤ × ℤ) :=
  [(-1, 0), (1, 0), (0, 1), (0, -1), (-1, 1), (-1, -1), (1, 1), (1, -1)]

/-- Bounds check for an integer coordinate pair against grid shape `H × W`. -/
def inb (H W : ℕ) (y x : ℤ) : Bool :=
  decide (0 ≤ y) && decide (y < (H : ℤ)) && decide (0 ≤ x) && decide (x < (W : ℤ))

/-- Value read by hydrology's `_shift_float(field, dy, dx)` at `(y, x)`:
`out[y, x] = field[y - dy, x - dx]`; boundary cells get the fill value, and
the `np.inf` fill used by `compute_flow_d8` is modelled as `none`. -/
def shiftVal (H W : ℕ) (g : ℕ → ℕ → ℚ) (d : ℤ × ℤ) (y x : ℕ) : Option ℚ :=
  if inb H W ((y : ℤ) - d.1) ((x : ℤ) - d.2)
  then some (g ((y : ℤ) - d.1).toNat ((x : ℤ) - d.2).toNat) else none

/-- Flat row-major index of the shifted cell, mirroring `_shift_index_grid`
(hydrology lines 2038-2053): `out[y, x] = (y - dy) * W + (x - dx)` when in
bounds, else `-1` (modelled as `none`). -/
def shiftIdx (H W : ℕ) (d : ℤ × ℤ) (y x : ℕ) : Option ℕ :=
  if inb H W ((y : ℤ) - d.1) ((x : ℤ) - d.2)
  then some (((y : ℤ) - d.1).toNat * W + ((x : ℤ) - d.2).toNat) else none

/-- The drop `height[y, x] - nh` seen by `compute_flow_d8` for direction
index `i` (OOB neighbours give drop `-inf`, modelled as `none`). -/
def dropAt (H W : ℕ) (g : ℕ → ℕ → ℚ) (y x i : ℕ) : Option ℚ :=
  (shiftVal H W g (DIRECTIONS8.getD i (0, 0)) y x).map (fun nh => g y x - nh)

/-- One step of the direction loop of `compute_flow_d8` (hydrology lines
639-647), on state `(best_drop, flow_dir, dest_flat)`: direction `i` wins iff
its drop strictly exceeds the best so far. -/
def d8Step (H W : ℕ) (g : ℕ → ℕ → ℚ) (y x : ℕ) (st : ℚ × Option ℕ × Option ℕ)
    (i : ℕ) : ℚ × Option ℕ × Option ℕ :=
  match dropAt H W g y x i with
  | none => st
  | some drop =>
      if st.1 < drop then (drop, some i, shiftIdx H W (DIRECTIONS8.getD i (0, 0)) y x)
      else st

/-- The full direction-selection fold of `compute_flow_d8` over the eight
canonical directions, starting from `best_drop = 0`, `flow_dir = dest = -1`. -/
def d8Select (H W : ℕ) (g : ℕ → ℕ → ℚ) (y x : ℕ) : ℚ × Option ℕ × Option ℕ :=
  (List.range 8).foldl (d8Step H W g y x) (0, none, none)

/-- `flow_dir` raster of `compute_flow_d8`: `none` encodes `-1` (ocean cells
and cells with no strictly positive drop). -/
def flowDir (H W : ℕ) (g : ℕ → ℕ → ℚ) (ocean : ℕ → ℕ → Bool) (y x : ℕ) :
    Option ℕ :=
  if ocean y x then none
  else if (d8Select H W g y x).1 ≤ 0 then none else (d8Select H W g y x).2.1

/-- `dest_flat` raster of `compute_flow_d8`: the flat index of the cell that
receives this cell's flow accumulation (`none` encodes `-1`). -/
def destFlat (H W : ℕ) (g : ℕ → ℕ → ℚ) (ocean : ℕ → ℕ → Bool) (y x : ℕ) :
    Option ℕ :=
  if ocean y x then none
  else if (d8Select H W g y x).1 ≤ 0 then none else (d8Select H W g y x).2.2

lemma dropAt_some_inb {H W : ℕ} {g : ℕ → ℕ → ℚ} {y x i : ℕ} {q : ℚ}
    (h : dropAt H W g y x i = some q) :
    inb H W ((y : ℤ) - (DIRECTIONS8.getD i (0, 0)).1)
      ((x : ℤ) - (DIRECTIONS8.getD i (0, 0)).2) = true := by
  by_cases hin : inb H W ((y : ℤ) - (DIRECTIONS8.getD i (0, 0)).1)
      ((x : ℤ) - (DIRECTIONS8.getD i (0, 0)).2)
  · exact hin
  · rw [dropAt, shiftVal, if_neg hin] at h
    cases h

/-- Invariant of the direction-selection fold of `compute_flow_d8` after
processing direction indices `0, …, n-1`. -/
lemma d8_fold_inv (H W : ℕ) (g : ℕ → ℕ → ℚ) (y x : ℕ) (n : ℕ) :
    0 ≤ ((List.range n).foldl (d8Step H W g y x) (0, none, none)).1 ∧
    (((List.range n).foldl (d8Step H W g y x) (0, none, none)).2.1 = none →
      ((List.range n).foldl (d8Step H W g y x) (0, none, none)).1 = 0 ∧
      ((List.range n).foldl (d8Step H W g y x) (0, none, none)).2.2 = none) ∧
    (∀ i, ((List.range n).foldl (d8Step H W g y x) (0, none, none)).2.1 = some i →
      i < n ∧
      dropAt H W g y x i =
        some ((List.range n).foldl (d8Step H W g y x) (0, none, none)).1 ∧
      0 < ((List.range n).foldl (d8Step H W g y x) (0, none, none)).1 ∧
      ((List.range n).foldl (d8Step H W g y x) (0, none, none)).2.2 =
        shiftIdx H W (DIRECTIONS8.getD i (0, 0)) y x) ∧
    (∀ j < n, ∀ q, dropAt H W g y x j = some q →
      q ≤ ((List.range n).foldl (d8Step H W g y x) (0, none, none)).1) := by
  induction n with
  | zero => simp
  | succ n ih =>
      rw [List.range_succ, List.foldl_append]
      obtain ⟨h0, hnone, hsome, hmax⟩ := ih
      set st := (List.range n).foldl (d8Step H W g y x) (0, none, none) with hst
      simp only [List.foldl_cons, List.foldl_nil]
      unfold d8Step
      cases hdrop : dropAt H W g y x n with
      | none =>
          refine ⟨h0, hnone, fun i hi => ?_, fun j hj q hq => ?_⟩
          · obtain ⟨h1, h2, h3, h4⟩ := hsome i hi
            exact ⟨Nat.lt_succ_of_lt h1, h2, h3, h4⟩
          · rcases Nat.lt_succ_iff_lt_or_eq.mp hj with hj' | rfl
            · exact hmax j hj' q hq
            · rw [hdrop] at hq; cases hq
      | some drop =>
          by_cases hlt : st.1 < drop
          · simp only [if_pos hlt]
            refine ⟨le_of_lt (lt_of_le_of_lt h0 hlt), by simp, fun i hi => ?_,
              fun j hj q hq => ?_⟩
            · simp only [Option.some.injEq] at hi
              subst hi
              exact ⟨Nat.lt_succ_self n, hdrop, lt_of_le_of_lt h0 hlt, rfl⟩
            · rcases Nat.lt_succ_iff_lt_or_eq.mp hj with hj' | rfl
              · exact le_of_lt (lt_of_le_of_lt (hmax j hj' q hq) hlt)
              · rw [hdrop] at hq
                cases hq
                exact le_refl _
          · simp only [if_neg hlt]
            refine ⟨h0, hnone, fun i hi => ?_, fun j hj q hq => ?_⟩
            · obtain ⟨h1, h2, h3, h4⟩ := hsome i hi
              exact ⟨Nat.lt_succ_of_lt h1, h2, h3, h4⟩
            · rcases Nat.lt_succ_iff_lt_or_eq.mp hj with hj' | rfl
              · exact hmax j hj' q hq
              · rw [hdrop] at hq
                cases hq
                exact le_of_not_lt hlt

/-- The fold invariant restated for `d8Select` itself. -/
lemma d8Select_inv (H W : ℕ) (g : ℕ → ℕ → ℚ) (y x : ℕ) :
    0 ≤ (d8Select H W g y x).1 ∧
    ((d8Select H W g y x).2.1 = none →
      (d8Select H W g y x).1 = 0 ∧ (d8Select H W g y x).2.2 = none) ∧
    (∀ i, (d8Select H W g y x).2.1 = some i →
      i < 8 ∧ dropAt H W g y x i = some (d8Select H W g y x).1 ∧
      0 < (d8Select H W g y x).1 ∧
      (d8Select H W g y x).2.2 = shiftIdx H W (DIRECTIONS8.getD i (0, 0)) y x) ∧
    (∀ j < 8, ∀ q, dropAt H W g y x j = some q → q ≤ (d8Select H W g y x).1) :=
  d8_fold_inv H W g y x 8

/-- C1 (amended): in `compute_flow_d8`, a cell's `flow_dir` is `-1` exactly
when the cell is ocean or no neighbour offers a strictly positive drop; and
when `flow_dir = d`, the cell that receives this cell's accumulation is the
8-neighbour at offset **minus** `_DIRECTIONS_8[d]`, i.e. `(y - dy, x - dx)`
for `(dy, dx) = _DIRECTIONS_8[d]`, and that neighbour realises the largest
positive drop among all 8 neighbours. -/
theorem compute_flow_d8_direction_contract (H W : ℕ) (g : ℕ → ℕ → ℚ)
    (ocean : ℕ → ℕ → Bool) (y x : ℕ) :
    (flowDir H W g ocean y x = none ↔
      ocean y x = true ∨ ∀ j < 8, ∀ q, dropAt H W g y x j = some q → q ≤ 0) ∧
    (∀ i, flowDir H W g ocean y x = some i →
      ocean y x = false ∧ i < 8 ∧
      destFlat H W g ocean y x =
        some (((y : ℤ) - (DIRECTIONS8.getD i (0, 0)).1).toNat * W +
              ((x : ℤ) - (DIRECTIONS8.getD i (0, 0)).2).toNat) ∧
      inb H W ((y : ℤ) - (DIRECTIONS8.getD i (0, 0)).1)
        ((x : ℤ) - (DIRECTIONS8.getD i (0, 0)).2) = true ∧
      ∃ q, dropAt H W g y x i = some q ∧ 0 < q ∧
        ∀ j < 8, ∀ p, dropAt H W g y x j = some p → p ≤ q) := by
  obtain ⟨h0, hnone, hsome, hmax⟩ := d8Select_inv H W g y x
  set st := d8Select H W g y x with hst
  constructor
  · constructor
    · intro h
      by_cases hoc : ocean y x
      · exact Or.inl hoc
      · refine Or.inr fun j hj q hq => ?_
        simp only [flowDir, hoc, if_false, Bool.false_eq_true, ← hst] at h
        by_cases hle : st.1 ≤ 0
        · exact le_trans (hmax j hj q hq) hle
        · rw [if_neg hle] at h
          obtain ⟨h1, _⟩ := hnone h
          exact le_trans (hmax j hj q hq) (le_of_eq h1)
    · intro h
      rcases h with hoc | hall
      · simp [flowDir, hoc]
      · simp only [flowDir, ← hst]
        by_cases hoc : ocean y x
        · simp [hoc]
        · simp only [hoc, Bool.false_eq_true, if_false]
          have hle : st.1 ≤ 0 := by
            cases hopt : st.2.1 with
            | none => exact le_of_eq (hnone hopt).1
            | some i =>
                obtain ⟨h1, h2, h3, _⟩ := hsome i hopt
                exact absurd (hall i h1 st.1 h2) (not_le.mpr h3)
          simp [hle]
  · intro i h
    have hoc : ocean y x = false := by
      by_cases hoc : ocean y x
      · simp [flowDir, hoc] at h
      · simpa using hoc
    simp only [flowDir, hoc, Bool.false_eq_true, if_false, ← hst] at h
    by_cases hle : st.1 ≤ 0
    · rw [if_pos hle] at h; cases h
    · rw [if_neg hle] at h
      obtain ⟨h1, h2, h3, h4⟩ := hsome i h
      have hdest : destFlat H W g ocean y x = st.2.2 := by
        simp [destFlat, hoc, ← hst, hle]
      have hin : inb H W ((y : ℤ) - (DIRECTIONS8.getD i (0, 0)).1)
          ((x : ℤ) - (DIRECTIONS8.getD i (0, 0)).2) = true := dropAt_some_inb h2
      refine ⟨hoc, h1, ?_, hin, st.1, h2, h3, fun j hj p hp => hmax j hj p hp⟩
      rw [hdest, h4, shiftIdx, if_pos hin]

/-- Concrete 1×2 heightfield `[5, 0]` used to refute the `+offset`
destination reading of the `flow_dir` encoding. -/
def g12 : ℕ → ℕ → ℚ := fun _ x => if x = 0 then 5 else 0

attribute [local semireducible] Rat.add Rat.mul Rat.sub Rat.inv in
/-- C1 (counterexample to the claim as stated): on the all-land 1×2 grid with
heights `[5, 0]`, cell `(0,0)` gets `flow_dir = 3` (offset `(0,-1)`) and its
accumulation destination is flat index `1`, i.e. cell `(0, 1) = (0,0) -
(0,-1)`; the cell at offset `+(0,-1)` claimed by the spec would be `(0,-1)`,
which is out of bounds. -/
theorem compute_flow_d8_dest_counterexample :
    flowDir 1 2 g12 (fun _ _ => false) 0 0 = some 3 ∧
    destFlat 1 2 g12 (fun _ _ => false) 0 0 = some 1 ∧
    inb 1 2 ((0 : ℤ) + (DIRECTIONS8.getD 3 (0, 0)).1)
      ((0 : ℤ) + (DIRECTIONS8.getD 3 (0, 0)).2) = false := by
  refine ⟨?_, ?_, ?_⟩ <;> decide

attribute [local semireducible] Rat.add Rat.mul Rat.sub Rat.inv in
/-- Witness for C1's amended theorem at the concrete 1×2 grid: cell `(0,0)`
has `flow_dir = 3` and its destination is the flat index given by the
negated-offset formula. -/
theorem compute_flow_d8_direction_contract_witness :
    destFlat 1 2 g12 (fun _ _ => false) 0 0 =
      some (((0 : ℤ) - (DIRECTIONS8.getD 3 (0, 0)).1).toNat * 2 +
            ((0 : ℤ) - (DIRECTIONS8.getD 3 (0, 0)).2).toNat) :=
  ((compute_flow_d8_direction_contract 1 2 g12 (fun _ _ => false) 0 0).2 3
    (by decide)).2.2.1

/-! ### Shared numeric helpers: Python `round`, numpy percentile, box blur -/

/-- Python's `round` (banker's rounding, half to even) on a rational. -/
def pyRound (q : ℚ) : ℤ :=
  let f := Int.floor q
  let r := q - (f : ℚ)
  if r < 1 / 2 then f
  else if 1 / 2 < r then f + 1
  else if Even f then f else f + 1

/-- Clamp an integer index into `[0, n-1]` (numpy `mode="edge"` padding). -/
def clampIdx (n : ℕ) (i : ℤ) : ℕ :=
  if i < 0 then 0 else min i.toNat (n - 1)

/-- Row-major list of the cells of an `H × W` grid. -/
def cells (H W : ℕ) : List (ℕ × ℕ) :=
  (List.range H).flatMap fun y => (List.range W).map fun x => (y, x)

/-- Values of raster `g` over the cells where `mask` holds, in row-major
order (numpy boolean indexing `g[mask]`). -/
def maskedVals (H W : ℕ) (mask : ℕ → ℕ → Bool) (g : ℕ → ℕ → ℚ) : List ℚ :=
  ((cells H W).filter fun p => mask p.1 p.2).map fun p => g p.1 p.2

/-- `np.percentile(vs, q)` with the default linear interpolation method,
computed exactly over `ℚ`. -/
def percentileQ (vs : List ℚ) (q : ℚ) : ℚ :=
  let sorted := vs.insertionSort (· ≤ ·)
  let n := vs.length
  if n = 0 then 0
  else
    let pos : ℚ := ((n - 1 : ℕ) : ℚ) * q / 100
    let lo : ℕ := (Int.floor pos).toNat
    let hi : ℕ := min (lo + 1) (n - 1)
    let frac : ℚ := pos - ((lo : ℕ) : ℚ)
    sorted.getD lo 0 + (sorted.getD hi 0 - sorted.getD lo 0) * frac

/-- Mean of raster `g` over the whole `H × W` grid (`arr.mean()`). -/
def meanQ (H W : ℕ) (g : ℕ → ℕ → ℚ) : ℚ :=
  ((cells H W).map fun p => g p.1 p.2).sum / ((H * W : ℕ) : ℚ)

/-- One 1-D box-blur pass along the x axis with edge padding; the cumulative
sum implementation of `_box_blur_axis` (tectonics.py) equals this sliding
window average exactly over `ℚ`. -/
def blurXPass (W : ℕ) (g : ℕ → ℕ → ℚ) (r : ℕ) : ℕ → ℕ → ℚ := fun y x =>
  (((List.range (2 * r + 1)).map
    fun k => g y (clampIdx W ((x : ℤ) + (k : ℤ) - (r : ℤ)))).sum) /
    ((2 * r + 1 : ℕ) : ℚ)

/-- One 1-D box-blur pass along the y axis with edge padding. -/
def blurYPass (H : ℕ) (g : ℕ → ℕ → ℚ) (r : ℕ) : ℕ → ℕ → ℚ := fun y x =>
  (((List.range (2 * r + 1)).map
    fun k => g (clampIdx H ((y : ℤ) + (k : ℤ) - (r : ℤ))) x).sum) /
    ((2 * r + 1 : ℕ) : ℚ)

/-- One pass of `box_blur` (tectonics.py lines 282-292): x axis then y axis. -/
def boxBlurPass (H W : ℕ) (r : ℕ) (g : ℕ → ℕ → ℚ) : ℕ → ℕ → ℚ :=
  blurYPass H (blurXPass W g r) r

/-- `box_blur(field, radius, passes)`: identity for `radius ≤ 0`, otherwise
`max 1 passes` repetitions of the separable pass. -/
def boxBlur (H W : ℕ) (g : ℕ → ℕ → ℚ) (r : ℕ) (passes : ℕ) : ℕ → ℕ → ℚ :=
  if r = 0 then g else (boxBlurPass H W r)^[max 1 passes] g

/-! ### Geomorph incision (`terrain/geomorph.py`) -/

/-- Geomorph's own `_shift_float(arr, dy, dx)` (geomorph.py lines 182-194):
note `out[y, x] = arr[y + dy, x + dx]` — the **opposite** sign convention
from hydrology's `_shift_float`.  `none` stands for an out-of-bounds read,
resolved by each call site's fill value. -/
def gShiftVal (H W : ℕ) (g : ℕ → ℕ → ℚ) (dy dx : ℤ) (y x : ℕ) : Option ℚ :=
  if inb H W ((y : ℤ) + dy) ((x : ℤ) + dx)
  then some (g ((y : ℤ) + dy).toNat ((x : ℤ) + dx).toNat) else none

/-- `max_allowed` of `_enforce_noninversion` for a cell in the region of
direction `(dy, dx)`: `clip(base - base_down + inc_down - eps, 0, None)`.
`base_down` has fill `np.inf`, which clips to `0` out of bounds, and
`inc_down` has fill `0.0`. -/
def noninvAllowed (H W : ℕ) (base capped : ℕ → ℕ → ℚ) (dy dx : ℤ)
    (y x : ℕ) : ℚ :=
  match gShiftVal H W base dy dx y x, gShiftVal H W capped dy dx y x with
  | some bd, some incd => max 0 (base y x - bd + incd - 1 / 1000)
  | _, _ => 0

/-- One direction iteration of `_enforce_noninversion` (geomorph.py lines
170-177): cells of the region `land ∧ flow_dir = i` get their depth capped
at `max_allowed`, all reads taken from the pre-iteration snapshot. -/
def noninvStep (H W : ℕ) (base : ℕ → ℕ → ℚ) (flowdir : ℕ → ℕ → Option ℕ)
    (land : ℕ → ℕ → Bool) (capped : ℕ → ℕ → ℚ) (i : ℕ) : ℕ → ℕ → ℚ :=
  fun y x =>
    if land y x ∧ flowdir y x = some i then
      min (capped y x)
        (noninvAllowed H W base capped (DIRECTIONS8.getD i (0, 0)).1
          (DIRECTIONS8.getD i (0, 0)).2 y x)
    else capped y x

/-- `_enforce_noninversion(base_height, incision_depth, flow_dir, land_mask)`
(geomorph.py lines 158-179). -/
def enforceNoninversion (H W : ℕ) (base depth : ℕ → ℕ → ℚ)
    (flowdir : ℕ → ℕ → Option ℕ) (land : ℕ → ℕ → Bool) : ℕ → ℕ → ℚ :=
  let capped := (List.range 8).foldl (noninvStep H W base flowdir land) depth
  fun y x => if land y x then capped y x else 0

/-- Concrete 1×3 heightfield `[0, 1, 1/2]` (all land) exhibiting the
non-inversion guard's direction mismatch. -/
def g13 : ℕ → ℕ → ℚ := fun _ x => if x = 0 then 0 else if x = 1 then 1 else 1 / 2

/-- Concrete incision depths `[0, 2, 3]` fed to the guard on `g13`. -/
def depth13 : ℕ → ℕ → ℚ := fun _ x => if x = 0 then 0 else if x = 1 then 2 else 3

attribute [local semireducible] Rat.add Rat.mul Rat.sub Rat.inv in
/-- C2 (code bug): on the all-land 1×3 grid with heights `[0, 1, 1/2]`, cell
`(0,1)` routes to destination `(0,0)` (`flow_dir = 2`, drop `1`), yet with
incision depths `[0, 2, 3]` the guard leaves `depth(0,1) = 2` (it caps
against the mirror neighbour `(0,2)` at `+offset` instead of the routing
destination `(0,0)` at `-offset`), so the claimed invariant
`h(c) - depth(c) ≥ h(dest) - depth(dest) + ε` fails: `-1 < 0.001`. -/
theorem enforce_noninversion_violates_claim :
    flowDir 1 3 g13 (fun _ _ => false) 0 1 = some 2 ∧
    destFlat 1 3 g13 (fun _ _ => false) 0 1 = some 0 ∧
    enforceNoninversion 1 3 g13 depth13 (flowDir 1 3 g13 (fun _ _ => false))
      (fun _ _ => true) 0 1 = 2 ∧
    enforceNoninversion 1 3 g13 depth13 (flowDir 1 3 g13 (fun _ _ => false))
      (fun _ _ => true) 0 0 = 0 ∧
    ¬ (g13 0 1 -
        enforceNoninversion 1 3 g13 depth13
          (flowDir 1 3 g13 (fun _ _ => false)) (fun _ _ => true) 0 1 ≥
       g13 0 0 -
        enforceNoninversion 1 3 g13 depth13
          (flowDir 1 3 g13 (fun _ _ => false)) (fun _ _ => true) 0 0 +
       1 / 1000) := by
  refine ⟨by decide, by decide, by decide, by decide, by decide⟩

/-- `GeomorphConfig` (config.py lines 154-166), float defaults written as
exact rationals. -/
structure GeomorphConfig where
  geomorph_incision_strength : ℚ := 1 / 500
  geomorph_incision_m : ℚ := 3 / 5
  geomorph_incision_n : ℚ := 1
  geomorph_max_depth_m : ℚ := 800
  geomorph_valley_blur_sigma_px : ℚ := 3 / 2
  geomorph_a_min : ℚ := 1 / 100
  geomorph_ridge_preserve : ℚ := 9 / 20
  geomorph_use_physical_stream_power : Bool := true
  geomorph_power_scale_percentile : ℚ := 999 / 10

/-- The default `GeomorphConfig()`. -/
def defaultGeomorphConfig : GeomorphConfig := {}

/-- Axis-0 component of `np.gradient(h, mpp, mpp)` (one-sided at the edges,
central differences inside; degenerate single-row grids are clamped). -/
def gradY (H : ℕ) (mpp : ℚ) (g : ℕ → ℕ → ℚ) : ℕ → ℕ → ℚ := fun y x =>
  if H ≤ 1 then 0
  else if y = 0 then (g 1 x - g 0 x) / mpp
  else if y = H - 1 then (g y x - g (y - 1) x) / mpp
  else (g (y + 1) x - g (y - 1) x) / (2 * mpp)

/-- Axis-1 component of `np.gradient(h, mpp, mpp)`. -/
def gradX (W : ℕ) (mpp : ℚ) (g : ℕ → ℕ → ℚ) : ℕ → ℕ → ℚ := fun y x =>
  if W ≤ 1 then 0
  else if x = 0 then (g y 1 - g y 0) / mpp
  else if x = W - 1 then (g y x - g y (x - 1)) / mpp
  else (g y (x + 1) - g y (x - 1)) / (2 * mpp)

/-- Geomorph's `_laplacian` (geomorph.py lines 197-205): four `_shift_float`
reads with the global mean as fill value, minus `4c`. -/
def geoLaplacian (H W : ℕ) (g : ℕ → ℕ → ℚ) : ℕ → ℕ → ℚ := fun y x =>
  (gShiftVal H W g (-1) 0 y x).getD (meanQ H W g) +
  (gShiftVal H W g 1 0 y x).getD (meanQ H W g) +
  (gShiftVal H W g 0 (-1) y x).getD (meanQ H W g) +
  (gShiftVal H W g 0 1 y x).getD (meanQ H W g) - 4 * g y x

/-- `accum_cells = np.clip(flow_accum, 0.0, None)` (geomorph.py line 81). -/
def accumCells (fa : ℕ → ℕ → ℚ) : ℕ → ℕ → ℚ := fun y x => max 0 (fa y x)

/-- `a_norm = np.clip(accum_cells / a_scale, 0.0, 1.0)` with
`a_scale = max(percentile(accum_land, 99.5), 1.0)` (lines 83-84). -/
def aNorm (H W : ℕ) (fa : ℕ → ℕ → ℚ) (land : ℕ → ℕ → Bool) : ℕ → ℕ → ℚ :=
  fun y x =>
    min 1 (max 0 (accumCells fa y x /
      max (percentileQ (maskedVals H W land (accumCells fa)) (995 / 10)) 1))

/-- `slope_phys = np.hypot(gx_phys, gy_phys)` with the float intrinsic
`hypot` as a parameter (lines 87-92). -/
def slopePhys (hypotQ : ℚ → ℚ → ℚ) (H W : ℕ) (mpp : ℚ) (h : ℕ → ℕ → ℚ) :
    ℕ → ℕ → ℚ := fun y x =>
  hypotQ (gradX W mpp h y x) (gradY H mpp h y x)

/-- `power_raw` after gating by land mask and `a_gate` (geomorph.py lines
85, 94-107), with `np.power` as the parameter `powQ`. -/
def powerRaw (hypotQ powQ : ℚ → ℚ → ℚ) (H W : ℕ) (h fa : ℕ → ℕ → ℚ)
    (land : ℕ → ℕ → Bool) (mpp : ℚ) (cfg : GeomorphConfig) : ℕ → ℕ → ℚ :=
  fun y x =>
    (if cfg.geomorph_use_physical_stream_power then
      powQ (max 0 (accumCells fa y x * (mpp * mpp))) cfg.geomorph_incision_m *
        powQ (max 0 (slopePhys hypotQ H W mpp h y x)) cfg.geomorph_incision_n
    else
      powQ (aNorm H W fa land y x) cfg.geomorph_incision_m *
        powQ (min 1 (max 0 (slopePhys hypotQ H W mpp h y x /
          max (percentileQ (maskedVals H W land (slopePhys hypotQ H W mpp h)) 99)
            (1 / 1000000)))) cfg.geomorph_incision_n) *
    (if land y x then 1 else 0) *
    (if cfg.geomorph_a_min ≤ aNorm H W fa land y x then 1 else 0)

/-- `incision_raw` after percentile normalisation, the ridge-preservation
attenuation, and land masking (geomorph.py lines 109-119). -/
def incisionRaw (hypotQ powQ : ℚ → ℚ → ℚ) (H W : ℕ) (h fa : ℕ → ℕ → ℚ)
    (land : ℕ → ℕ → Bool) (mpp : ℚ) (cfg : GeomorphConfig) : ℕ → ℕ → ℚ :=
  fun y x =>
    (min 1 (max 0 (powerRaw hypotQ powQ H W h fa land mpp cfg y x /
      max (percentileQ
        (maskedVals H W land (powerRaw hypotQ powQ H W h fa land mpp cfg))
        (min 100 (max 90 cfg.geomorph_power_scale_percentile)))
        (1 / 1000000000))) *
     (if geoLaplacian H W h y x < 0
      then min 1 (max 0 cfg.geomorph_ridge_preserve) else 1)) *
    (if land y x then 1 else 0)

/-- Blur radius `max(1, round(max(0.5, sigma) * 1.5))` (line 121). -/
def valleyBlurRadius (cfg : GeomorphConfig) : ℕ :=
  max 1 (pyRound (max (1 / 2) cfg.geomorph_valley_blur_sigma_px * (3 / 2))).toNat

/-- `incision_blurred` (lines 122-123): 3-pass box blur, land-masked. -/
def incisionBlurred (hypotQ powQ : ℚ → ℚ → ℚ) (H W : ℕ) (h fa : ℕ → ℕ → ℚ)
    (land : ℕ → ℕ → Bool) (mpp : ℚ) (cfg : GeomorphConfig) : ℕ → ℕ → ℚ :=
  fun y x =>
    boxBlur H W (incisionRaw hypotQ powQ H W h fa land mpp cfg)
      (valleyBlurRadius cfg) 3 y x *
    (if land y x then 1 else 0)

/-- `incision_depth` before the non-inversion guard (lines 125-127). -/
def incisionDepthPre (hypotQ powQ : ℚ → ℚ → ℚ) (H W : ℕ) (h fa : ℕ → ℕ → ℚ)
    (land : ℕ → ℕ → Bool) (mpp : ℚ) (cfg : GeomorphConfig) : ℕ → ℕ → ℚ :=
  fun y x =>
    min (incisionBlurred hypotQ powQ H W h fa land mpp cfg y x *
      (cfg.geomorph_max_depth_m *
        min 1 (max 0 (cfg.geomorph_incision_strength * 320))))
      cfg.geomorph_max_depth_m *
    (if land y x then 1 else 0)

/-- Final capped `incision_depth` (lines 128-133). -/
def incisionDepth (hypotQ powQ : ℚ → ℚ → ℚ) (H W : ℕ) (h fa : ℕ → ℕ → ℚ)
    (flowdir : ℕ → ℕ → Option ℕ) (land : ℕ → ℕ → Bool) (mpp : ℚ)
    (cfg : GeomorphConfig) : ℕ → ℕ → ℚ :=
  enforceNoninversion H W h
    (incisionDepthPre hypotQ powQ H W h fa land mpp cfg) flowdir land

/-- `h_geomorph` of `apply_hierarchical_incision` (geomorph.py lines 46-137):
`h - incision_depth` on land, `h` elsewhere, with the all-ocean early
return of lines 62-79. -/
def hGeomorph (hypotQ powQ : ℚ → ℚ → ℚ) (H W : ℕ) (h fa : ℕ → ℕ → ℚ)
    (flowdir : ℕ → ℕ → Option ℕ) (land : ℕ → ℕ → Bool) (mpp : ℚ)
    (cfg : GeomorphConfig) : ℕ → ℕ → ℚ :=
  if (cells H W).all (fun p => ! land p.1 p.2) then h
  else fun y x =>
    if land y x then
      h y x - incisionDepth hypotQ powQ H W h fa flowdir land mpp cfg y x
    else h y x

lemma foldl_preserve {α β : Type} {P : α → Prop} {f : α → β → α}
    (hf : ∀ st a, P st → P (f st a)) :
    ∀ (l : List β) (st : α), P st → P (l.foldl f st)
  | [], _, h => h
  | a :: l, st, h => foldl_preserve hf l (f st a) (hf st a h)

lemma blurXPass_nonneg {W : ℕ} {g : ℕ → ℕ → ℚ} {r : ℕ}
    (hg : ∀ y x, 0 ≤ g y x) : ∀ y x, 0 ≤ blurXPass W g r y x := by
  intro y x
  apply div_nonneg _ (by positivity)
  apply List.sum_nonneg
  intro q hq
  simp only [List.mem_map] at hq
  obtain ⟨k, _, rfl⟩ := hq
  exact hg _ _

lemma blurYPass_nonneg {H : ℕ} {g : ℕ → ℕ → ℚ} {r : ℕ}
    (hg : ∀ y x, 0 ≤ g y x) : ∀ y x, 0 ≤ blurYPass H g r y x := by
  intro y x
  apply div_nonneg _ (by positivity)
  apply List.sum_nonneg
  intro q hq
  simp only [List.mem_map] at hq
  obtain ⟨k, _, rfl⟩ := hq
  exact hg _ _

lemma boxBlur_nonneg {H W : ℕ} {g : ℕ → ℕ → ℚ} {r passes : ℕ}
    (hg : ∀ y x, 0 ≤ g y x) : ∀ y x, 0 ≤ boxBlur H W g r passes y x := by
  unfold boxBlur
  by_cases hr : r = 0
  · simpa [hr] using hg
  · rw [if_neg hr]
    generalize max 1 passes = n
    induction n with
    | zero => simpa using hg
    | succ n ih =>
        rw [Function.iterate_succ_apply']
        exact blurYPass_nonneg (blurXPass_nonneg ih)

lemma noninvStep_nonneg {H W : ℕ} {base : ℕ → ℕ → ℚ}
    {flowdir : ℕ → ℕ → Option ℕ} {land : ℕ → ℕ → Bool}
    {capped : ℕ → ℕ → ℚ} {i : ℕ} (hc : ∀ y x, 0 ≤ capped y x) :
    ∀ y x, 0 ≤ noninvStep H W base flowdir land capped i y x := by
  intro y x
  unfold noninvStep
  split
  · refine le_min (hc y x) ?_
    unfold noninvAllowed
    split
    · exact le_max_left _ _
    · exact le_refl 0
  · exact hc y x

lemma enforceNoninversion_nonneg {H W : ℕ} {base depth : ℕ → ℕ → ℚ}
    {flowdir : ℕ → ℕ → Option ℕ} {land : ℕ → ℕ → Bool}
    (hd : ∀ y x, 0 ≤ depth y x) :
    ∀ y x, 0 ≤ enforceNoninversion H W base depth flowdir land y x := by
  intro y x
  unfold enforceNoninversion
  have h := @foldl_preserve _ _ (fun c => ∀ y x, 0 ≤ c y x)
    (noninvStep H W base flowdir land)
    (fun st a hst => @noninvStep_nonneg H W base flowdir land st a hst)
    (List.range 8) depth hd
  split
  · exact h y x
  · exact le_refl 0

lemma incisionRaw_nonneg {hypotQ powQ : ℚ → ℚ → ℚ} {H W : ℕ}
    {h fa : ℕ → ℕ → ℚ} {land : ℕ → ℕ → Bool} {mpp : ℚ}
    {cfg : GeomorphConfig} :
    ∀ y x, 0 ≤ incisionRaw hypotQ powQ H W h fa land mpp cfg y x := by
  intro y x
  unfold incisionRaw
  refine mul_nonneg (mul_nonneg ?_ ?_) ?_
  · exact le_min (by norm_num) (le_max_left _ _)
  · split
    · exact le_min (by norm_num) (le_max_left _ _)
    · norm_num
  · split <;> norm_num

lemma incisionDepthPre_nonneg {hypotQ powQ : ℚ → ℚ → ℚ} {H W : ℕ}
    {h fa : ℕ → ℕ → ℚ} {land : ℕ → ℕ → Bool} {mpp : ℚ}
    {cfg : GeomorphConfig} (hmax : 0 ≤ cfg.geomorph_max_depth_m) :
    ∀ y x, 0 ≤ incisionDepthPre hypotQ powQ H W h fa land mpp cfg y x := by
  intro y x
  unfold incisionDepthPre
  refine mul_nonneg (le_min ?_ hmax) ?_
  · refine mul_nonneg ?_ (mul_nonneg hmax ?_)
    · unfold incisionBlurred
      refine mul_nonneg (boxBlur_nonneg incisionRaw_nonneg y x) ?_
      split <;> norm_num
    · exact le_min (by norm_num) (le_max_left _ _)
  · split <;> norm_num

/-- C9: `apply_hierarchical_incision` only deepens land and leaves ocean
untouched: for every input raster, flow field, RNG-independent config with
nonnegative `geomorph_max_depth_m`, and every choice of the float intrinsics
`hypot` and `power`, `h_geomorph` equals `h_hydro` exactly off land, and on
land `h_hydro - h_geomorph ≥ -1e-4` (the computed incision depth is in fact
never negative). -/
theorem apply_hierarchical_incision_frame (hypotQ powQ : ℚ → ℚ → ℚ)
    (H W : ℕ) (h fa : ℕ → ℕ → ℚ) (flowdir : ℕ → ℕ → Option ℕ)
    (land : ℕ → ℕ → Bool) (mpp : ℚ) (cfg : GeomorphConfig)
    (hmax : 0 ≤ cfg.geomorph_max_depth_m) :
    (∀ y x, land y x = false →
      hGeomorph hypotQ powQ H W h fa flowdir land mpp cfg y x = h y x) ∧
    (∀ y x, land y x = true →
      h y x - hGeomorph hypotQ powQ H W h fa flowdir land mpp cfg y x ≥
        -(1 / 10000)) := by
  constructor
  · intro y x hl
    unfold hGeomorph
    split
    · rfl
    · simp [hl]
  · intro y x hl
    unfold hGeomorph
    split
    · simp
    · simp only [hl, if_true]
      have hd : 0 ≤ incisionDepth hypotQ powQ H W h fa flowdir land mpp cfg y x :=
        enforceNoninversion_nonneg (incisionDepthPre_nonneg hmax) y x
      linarith

attribute [local semireducible] Rat.add Rat.mul Rat.sub Rat.inv in
/-- Witness for C9 at a concrete instance: the default config has
nonnegative max depth, and the conclusion holds at the 1×2 grid `g12` with
trivial intrinsics. -/
theorem apply_hierarchical_incision_frame_witness :
    (0 : ℚ) ≤ defaultGeomorphConfig.geomorph_max_depth_m ∧
    (∀ y x, (fun _ x => decide (x = 0) : ℕ → ℕ → Bool) y x = false →
      hGeomorph (fun a _ => a) (fun a _ => a) 1 2 g12 g12
        (fun _ _ => none) (fun _ x => decide (x = 0)) 5000
        defaultGeomorphConfig y x = g12 y x) ∧
    (∀ y x, (fun _ x => decide (x = 0) : ℕ → ℕ → Bool) y x = true →
      g12 y x - hGeomorph (fun a _ => a) (fun a _ => a) 1 2 g12 g12
        (fun _ _ => none) (fun _ x => decide (x = 0)) 5000
        defaultGeomorphConfig y x ≥ -(1 / 10000)) := by
  have h := apply_hierarchical_incision_frame (fun a _ => a) (fun a _ => a)
    1 2 g12 g12 (fun _ _ => none) (fun _ x => decide (x = 0)) 5000
    defaultGeomorphConfig (by decide)
  exact ⟨by decide, h.1, h.2⟩

/-! ### Downhill river enforcement (`terrain/hydrology.py` lines 1534-1600) -/

/-- Ravel a 2-D raster into flat row-major indexing. -/
def flatten (W : ℕ) (g : ℕ → ℕ → ℚ) : ℕ → ℚ := fun f => g (f / W) (f % W)

/-- Ravel a boolean raster. -/
def flattenB (W : ℕ) (g : ℕ → ℕ → Bool) : ℕ → Bool := fun f => g (f / W) (f % W)

/-- Ravel a `flow_dir` raster. -/
def flattenO (W : ℕ) (g : ℕ → ℕ → Option ℕ) : ℕ → Option ℕ :=
  fun f => g (f / W) (f % W)

/-- Pointwise update of a flat rational raster. -/
def updateQ (g : ℕ → ℚ) (i : ℕ) (v : ℚ) : ℕ → ℚ :=
  fun j => if j = i then v else g j

/-- `_flow_dest_from_dir` (hydrology lines 1695-1704): flat destination index
per cell; direction values outside `0..7` never match a region and stay
`-1`. -/
def flowDestFromDir (H W : ℕ) (flowdir : ℕ → ℕ → Option ℕ) : ℕ → Option ℕ :=
  fun f =>
    match flattenO W flowdir f with
    | none => none
    | some i =>
        if i < 8 then shiftIdx H W (DIRECTIONS8.getD i (0, 0)) (f / W) (f % W)
        else none

/-- `np.argsort` over flat index range `0..n-1` keyed by `key`, modelled as a
stable ascending sort (ties by lower flat index). -/
def argsortAsc (n : ℕ) (key : ℕ → ℚ) : List ℕ :=
  List.insertionSort (fun a b => key a < key b ∨ (key a = key b ∧ a ≤ b))
    (List.range n)

/-- One step of the ascending-accumulation walk of
`enforce_downhill_river_profile` (hydrology lines 1571-1587), on state
`(h_flat, mask_flat)`. -/
def enforceStep (lake : ℕ → Bool) (dest : ℕ → Option ℕ)
    (st : (ℕ → ℚ) × (ℕ → ℚ)) (src : ℕ) : (ℕ → ℚ) × (ℕ → ℚ) :=
  if st.2 src ≤ 0 then st
  else
    match dest src with
    | none => (st.1, updateQ st.2 src 0)
    | some dst =>
        if lake dst then
          if st.1 src < st.1 dst - 1 / 10000 then (st.1, updateQ st.2 src 0)
          else st
        else
          if st.1 src - 1 / 100 ≤ st.1 dst then
            (updateQ st.1 dst (st.1 src - 1 / 100), st.2)
          else st

/-- The final direction sweep of `enforce_downhill_river_profile` (lines
1591-1599): river cells whose downstream read is out of bounds (`np.inf`
fill) or more than `1e-4` above them are dropped from the mask. -/
def enforceFinalMask (H W : ℕ) (h : ℕ → ℚ) (fd : ℕ → Option ℕ)
    (mask : ℕ → ℚ) : ℕ → ℚ := fun f =>
  match fd f with
  | none => mask f
  | some i =>
      if 0 < mask f ∧ i < 8 then
        match shiftVal H W (fun y x => h (y * W + x)) (DIRECTIONS8.getD i (0, 0))
            (f / W) (f % W) with
        | none => 0
        | some down => if h f - down < -(1 / 10000) then 0 else mask f
      else mask f

/-- `enforce_downhill_river_profile(height, flow_dir, flow_accum_raw,
river_mask, lake_mask)` (hydrology lines 1550-1600), returning the adjusted
`(river_mask, heights)` pair in flat form. -/
def enforceDownhillRiverProfile (H W : ℕ) (height : ℕ → ℕ → ℚ)
    (flowdir : ℕ → ℕ → Option ℕ) (fa : ℕ → ℕ → ℚ) (river : ℕ → ℕ → ℚ)
    (lake : ℕ → ℕ → Bool) : (ℕ → ℚ) × (ℕ → ℚ) :=
  let lakeF := flattenB W lake
  let fdF := flattenO W flowdir
  let mask0 : ℕ → ℚ := fun f =>
    if lakeF f then 0 else match fdF f with | none => 0 | some _ => flatten W river f
  let dest := flowDestFromDir H W flowdir
  let order := argsortAsc (H * W) (flatten W fa)
  let st := order.foldl (enforceStep lakeF dest) (flatten W height, mask0)
  (enforceFinalMask H W st.1 fdF st.2, st.1)

/-- `assert_downhill_river_routing(h_drain, flow_dir, river_mask)`
(hydrology lines 1534-1547) as an `Except`: raises iff some river cell's
downstream read (OOB = `np.inf`) is more than `1e-4` above it. -/
def assertDownhillRiverRouting (H W : ℕ) (h : ℕ → ℚ) (fd : ℕ → Option ℕ)
    (mask : ℕ → ℚ) : Except String Unit :=
  if (List.range (H * W)).all (fun f =>
      match fd f with
      | none => true
      | some i =>
          if 0 < mask f ∧ i < 8 then
            match shiftVal H W (fun y x => h (y * W + x))
                (DIRECTIONS8.getD i (0, 0)) (f / W) (f % W) with
            | none => false
            | some down => decide (-(1 / 10000) ≤ h f - down)
          else true) then
    Except.ok ()
  else Except.error "Detected uphill river routing after lake handling"

/-- If the final sweep keeps a river cell, its downstream read exists and is
at most `1e-4` above the cell. -/
lemma enforceFinalMask_sound {H W : ℕ} {h : ℕ → ℚ} {fd : ℕ → Option ℕ}
    {mask : ℕ → ℚ} {f i : ℕ} (hpos : 0 < enforceFinalMask H W h fd mask f)
    (hfd : fd f = some i) (hi : i < 8) :
    ∃ down,
      shiftVal H W (fun y x => h (y * W + x)) (DIRECTIONS8.getD i (0, 0))
        (f / W) (f % W) = some down ∧
      -(1 / 10000) ≤ h f - down := by
  unfold enforceFinalMask at hpos
  simp only [hfd] at hpos
  by_cases hguard : 0 < mask f ∧ i < 8
  · rw [if_pos hguard] at hpos
    cases hsh : shiftVal H W (fun y x => h (y * W + x))
        (DIRECTIONS8.getD i (0, 0)) (f / W) (f % W) with
    | none => simp only [hsh] at hpos; exact absurd hpos (lt_irrefl 0)
    | some down =>
        simp only [hsh] at hpos
        by_cases hlt : h f - down < -(1 / 10000)
        · rw [if_pos hlt] at hpos; exact absurd hpos (lt_irrefl 0)
        · exact ⟨down, rfl, not_lt.mp hlt⟩
  · rw [if_neg hguard] at hpos
    exact absurd ⟨hpos, hi⟩ hguard

/-- C6: the outputs of `enforce_downhill_river_profile` satisfy the downhill
constraint — every remaining river cell's D8-downstream neighbour has
adjusted height at most `h(c) + 1e-4` — so the subsequent
`assert_downhill_river_routing` check never raises, for all inputs. -/
theorem enforce_downhill_river_profile_safe (H W : ℕ) (height : ℕ → ℕ → ℚ)
    (flowdir : ℕ → ℕ → Option ℕ) (fa : ℕ → ℕ → ℚ) (river : ℕ → ℕ → ℚ)
    (lake : ℕ → ℕ → Bool) :
    (∀ f i, 0 < (enforceDownhillRiverProfile H W height flowdir fa river lake).1 f →
      flattenO W flowdir f = some i → i < 8 →
      ∃ down,
        shiftVal H W
          (fun y x => (enforceDownhillRiverProfile H W height flowdir fa river lake).2
            (y * W + x))
          (DIRECTIONS8.getD i (0, 0)) (f / W) (f % W) = some down ∧
        down ≤ (enforceDownhillRiverProfile H W height flowdir fa river lake).2 f +
          1 / 10000) ∧
    assertDownhillRiverRouting H W
      (enforceDownhillRiverProfile H W height flowdir fa river lake).2
      (flattenO W flowdir)
      (enforceDownhillRiverProfile H W height flowdir fa river lake).1 =
      Except.ok () := by
  obtain ⟨m, hm⟩ :
      ∃ m, (enforceDownhillRiverProfile H W height flowdir fa river lake).1 =
        enforceFinalMask H W
          (enforceDownhillRiverProfile H W height flowdir fa river lake).2
          (flattenO W flowdir) m := ⟨_, rfl⟩
  have hmain : ∀ f i,
      0 < (enforceDownhillRiverProfile H W height flowdir fa river lake).1 f →
      flattenO W flowdir f = some i → i < 8 →
      ∃ down,
        shiftVal H W
          (fun y x => (enforceDownhillRiverProfile H W height flowdir fa river lake).2
            (y * W + x))
          (DIRECTIONS8.getD i (0, 0)) (f / W) (f % W) = some down ∧
        down ≤ (enforceDownhillRiverProfile H W height flowdir fa river lake).2 f +
          1 / 10000 := by
    intro f i hpos hfd hi
    rw [hm] at hpos
    obtain ⟨down, hsh, hge⟩ := enforceFinalMask_sound hpos hfd hi
    exact ⟨down, hsh, by linarith⟩
  refine ⟨hmain, ?_⟩
  unfold assertDownhillRiverRouting
  rw [if_pos]
  rw [List.all_eq_true]
  intro f _
  cases hfd : flattenO W flowdir f with
  | none => rfl
  | some i =>
      simp only []
      by_cases hguard :
          0 < (enforceDownhillRiverProfile H W height flowdir fa river lake).1 f ∧
          i < 8
      · rw [if_pos hguard]
        obtain ⟨down, hsh, hdown⟩ := hmain f i hguard.1 hfd hguard.2
        rw [hsh]
        simp only [decide_eq_true_eq]
        linarith
      · rw [if_neg hguard]

attribute [local semireducible] Rat.add Rat.mul Rat.sub Rat.inv in
/-- Witness for C6 on the 1×2 grid `[5, 0]` with its own `compute_flow_d8`
directions: cell `0` stays a river cell and its downstream constraint holds. -/
theorem enforce_downhill_river_profile_safe_witness :
    0 < (enforceDownhillRiverProfile 1 2 g12 (flowDir 1 2 g12 (fun _ _ => false))
      (fun _ _ => 0) (fun _ _ => 1) (fun _ _ => false)).1 0 ∧
    ∃ down,
      shiftVal 1 2
        (fun y x => (enforceDownhillRiverProfile 1 2 g12
          (flowDir 1 2 g12 (fun _ _ => false)) (fun _ _ => 0) (fun _ _ => 1)
          (fun _ _ => false)).2 (y * 2 + x))
        (DIRECTIONS8.getD 3 (0, 0)) (0 / 2) (0 % 2) = some down ∧
      down ≤ (enforceDownhillRiverProfile 1 2 g12
        (flowDir 1 2 g12 (fun _ _ => false)) (fun _ _ => 0) (fun _ _ => 1)
        (fun _ _ => false)).2 0 + 1 / 10000 :=
  ⟨by decide,
   (enforce_downhill_river_profile_safe 1 2 g12
      (flowDir 1 2 g12 (fun _ _ => false)) (fun _ _ => 0) (fun _ _ => 1)
      (fun _ _ => false)).1 0 3 (by decide) (by decide) (by decide)⟩

/-! ### `validate_flow_fields` (`terrain/hydrology.py` lines 1512-1531) -/

/-- A float32 cell value: either NaN or an exact rational. -/
inductive FVal where
  | nan : FVal
  | val : ℚ → FVal
deriving DecidableEq

/-- `np.isnan` on one cell. -/
def FVal.isNanB : FVal → Bool
  | .nan => true
  | .val _ => false

/-- IEEE `x < 0` (false for NaN). -/
def FVal.ltZero : FVal → Bool
  | .nan => false
  | .val q => decide (q < 0)

/-- Numeric reading of a non-NaN cell (only consulted after the NaN guard). -/
def FVal.toQ : FVal → ℚ
  | .nan => 0
  | .val q => q

/-- `np.min` of a value list (list nonempty in every guarded use). -/
def npMin : List ℚ → ℚ
  | [] => 0
  | h :: t => t.foldl min h

/-- `np.max` of a value list. -/
def npMax : List ℚ → ℚ
  | [] => 0
  | h :: t => t.foldl max h

/-- `np.mean` of a value list. -/
def npMean (l : List ℚ) : ℚ := l.sum / (l.length : ℚ)

/-- `np.mean(l > 0)`: the fraction of strictly positive entries. -/
def posFraction (l : List ℚ) : ℚ :=
  ((l.filter fun q => decide (0 < q)).length : ℚ) / (l.length : ℚ)

/-- All raster values in row-major order. -/
def faVals (H W : ℕ) (fa : ℕ → ℕ → FVal) : List FVal :=
  (cells H W).map fun p => fa p.1 p.2

/-- `flow_accum[land]` as exact rationals. -/
def landFlow (H W : ℕ) (fa : ℕ → ℕ → FVal) (land : ℕ → ℕ → Bool) : List ℚ :=
  (((cells H W).filter fun p => land p.1 p.2).map fun p => (fa p.1 p.2).toQ)

/-- `np.any(land)`. -/
def anyLand (H W : ℕ) (land : ℕ → ℕ → Bool) : Bool :=
  (cells H W).any fun p => land p.1 p.2

/-- `land_flow = flow_accum[land] if np.any(land) else flow_accum`. -/
def tailFlow (H W : ℕ) (fa : ℕ → ℕ → FVal) (land : ℕ → ℕ → Bool) : List ℚ :=
  if anyLand H W land then landFlow H W fa land
  else (faVals H W fa).map FVal.toQ

/-- `validate_flow_fields(flow_accum, flow_dir, land_mask)` (hydrology lines
1512-1531); `flow_dir` is accepted and ignored, as in the source. -/
def validateFlowFields (H W : ℕ) (fa : ℕ → ℕ → FVal)
    (_flowdir : ℕ → ℕ → Option ℕ) (land : ℕ → ℕ → Bool) :
    Except String Unit :=
  if (faVals H W fa).any FVal.isNanB then
    Except.error "flow_accum contains NaN"
  else if (faVals H W fa).any FVal.ltZero then
    Except.error "flow_accum has negative values"
  else if anyLand H W land ∧ npMin (landFlow H W fa land) < 1 - 1 / 10000 then
    Except.error "flow_accum has land value below self-contribution"
  else if anyLand H W land ∧ posFraction (landFlow H W fa land) < 98 / 100 then
    Except.error "flow_accum nonzero fraction too low"
  else if 0 < npMean (tailFlow H W fa land) ∧
      npMax (tailFlow H W fa land) ≤ 10 * npMean (tailFlow H W fa land) then
    Except.error "flow_accum lacks expected heavy-tail ratio"
  else Except.ok ()

/-- C7: `validate_flow_fields` raises a descriptive error **iff** one of the
listed invariants fails — NaN present, a negative value, the land minimum
below `1 - 1e-4`, fewer than 98% of land cells strictly positive, or the
heavy-tail check (`mean > 0` and `max ≤ 10·mean` over the land flow, the
whole raster when no land exists); otherwise it returns `ok` (the embedding
is pure, so inputs are untouched). -/
theorem validate_flow_fields_error_iff (H W : ℕ) (fa : ℕ → ℕ → FVal)
    (flowdir : ℕ → ℕ → Option ℕ) (land : ℕ → ℕ → Bool) :
    (∃ msg, validateFlowFields H W fa flowdir land = Except.error msg) ↔
      ((faVals H W fa).any FVal.isNanB = true ∨
       (faVals H W fa).any FVal.ltZero = true ∨
       (anyLand H W land = true ∧ npMin (landFlow H W fa land) < 1 - 1 / 10000) ∨
       (anyLand H W land = true ∧ posFraction (landFlow H W fa land) < 98 / 100) ∨
       (0 < npMean (tailFlow H W fa land) ∧
        npMax (tailFlow H W fa land) ≤ 10 * npMean (tailFlow H W fa land))) := by
  unfold validateFlowFields
  constructor
  · rintro ⟨msg, h⟩
    split_ifs at h with h1 h2 h3 h4 h5
    · exact Or.inl h1
    · exact Or.inr (Or.inl h2)
    · exact Or.inr (Or.inr (Or.inl h3))
    · exact Or.inr (Or.inr (Or.inr (Or.inl h4)))
    · exact Or.inr (Or.inr (Or.inr (Or.inr h5)))
  · intro hd
    split_ifs with h1 h2 h3 h4 h5
    · exact ⟨_, rfl⟩
    · exact ⟨_, rfl⟩
    · exact ⟨_, rfl⟩
    · exact ⟨_, rfl⟩
    · exact ⟨_, rfl⟩
    · rcases hd with h | h | h | h | h
      · exact absurd h h1
      · exact absurd h h2
      · exact absurd h h3
      · exact absurd h h4
      · exact absurd h h5

/-! ### Cross-basin capture selection (`terrain/hydrology.py` lines 833-847) -/

/-- A capture candidate as appended at hydrology line 833:
`(required_cut, -basin_size, path_flat)`. -/
def Cand := ℚ × ℤ × List ℕ

/-- Python's stable sort key comparison `(item[0], item[1]) ≤ …` used at
line 838. -/
def candLe (a b : Cand) : Prop :=
  a.1 < b.1 ∨ (a.1 = b.1 ∧ a.2.1 ≤ b.2.1)

instance : DecidableRel candLe := fun a b => by
  unfold candLe; infer_instance

/-- `k = int(round(capture_fraction * len(candidates)))`, bumped to `1` when
positive fraction rounds to zero, capped at the candidate count (hydrology
lines 839-842). -/
def captureSelectCount (fraction : ℚ) (count : ℕ) : ℕ :=
  min (if 0 < fraction ∧ (pyRound (fraction * count)).toNat = 0 then 1
       else (pyRound (fraction * count)).toNat) count

/-- The selected prefix `candidates[:k]` after the stable sort of line 838. -/
def selectCaptures (fraction : ℚ) (cands : List Cand) : List Cand :=
  (cands.insertionSort candLe).take (captureSelectCount fraction cands.length)

/-- `np.minimum.accumulate`: running minimum of a list. -/
def cumMin : List ℚ → List ℚ
  | [] => []
  | a :: t => a :: (cumMin t).map fun x => min a x

/-- `_capture_profile(vals)` (hydrology lines 1098-1110): clip `vals` under
the linear ramp from `vals[0]` to the target end (the last value if it is
at least 0.005 below the start, else start − 0.02) and make the result
non-increasing with a running minimum. -/
def captureProfile (vals : List ℚ) : List ℚ :=
  if vals.length < 2 then vals
  else
    cumMin (List.zipWith min vals
      ((List.range vals.length).map fun i =>
        vals.headD 0 +
          ((if (vals.getLast?).getD 0 < vals.headD 0 - 5 / 1000 then
              (vals.getLast?).getD 0
            else vals.headD 0 - 2 / 100) - vals.headD 0) * i /
            ((vals.length - 1 : ℕ) : ℚ)))

/-- `_carve_capture_path(height, path_flat, max_sill)` (hydrology lines
1087-1095) on the flat raster: write the capture profile along the path
unless the maximum cut exceeds `max_sill`; the fancy assignment writes path
positions in order. -/
def carveCapturePath (h : ℕ → ℚ) (path : List ℕ) (maxSill : ℚ) : ℕ → ℚ :=
  if path.length < 2 then h
  else if maxSill <
      npMax (List.zipWith (fun a b => a - b) (path.map h)
        (captureProfile (path.map h))) then h
  else
    (List.zip path (captureProfile (path.map h))).foldl
      (fun g pc => updateQ g pc.1 pc.2) h

/-- One iteration of the carve loop (hydrology lines 844-846): carve the
candidate's path into the height raster and record the path in
`capture_paths_mask`. -/
def carveStep (maxSill : ℚ) (st : (ℕ → ℚ) × (ℕ → Bool)) (c : Cand) :
    (ℕ → ℚ) × (ℕ → Bool) :=
  (carveCapturePath st.1 c.2.2 maxSill,
    fun f => st.2 f || decide (f ∈ c.2.2))

/-- The carve loop `for _, _, path_flat in candidates[:k]` (hydrology lines
844-846), threading the height raster and `capture_paths_mask` through the
selected candidates in sorted order. -/
def carveSelected (fraction maxSill : ℚ) (cands : List Cand) (h0 : ℕ → ℚ)
    (mask0 : ℕ → Bool) : (ℕ → ℚ) × (ℕ → Bool) :=
  (selectCaptures fraction cands).foldl (carveStep maxSill) (h0, mask0)

lemma candLe_total : ∀ a b : Cand, candLe a b ∨ candLe b a := by
  intro a b
  unfold candLe
  rcases lt_trichotomy a.1 b.1 with h | h | h
  · exact Or.inl (Or.inl h)
  · rcases le_total a.2.1 b.2.1 with h2 | h2
    · exact Or.inl (Or.inr ⟨h, h2⟩)
    · exact Or.inr (Or.inr ⟨h.symm, h2⟩)
  · exact Or.inr (Or.inl h)

lemma candLe_trans : ∀ a b c : Cand, candLe a b → candLe b c → candLe a c := by
  intro a b c hab hbc
  unfold candLe at *
  rcases hab with h | ⟨he, h⟩ <;> rcases hbc with h' | ⟨he', h'⟩
  · exact Or.inl (h.trans h')
  · exact Or.inl (he' ▸ h)
  · exact Or.inl (he ▸ h')
  · exact Or.inr ⟨he.trans he', h.trans h'⟩

instance : IsTotal Cand candLe := ⟨candLe_total⟩
instance : IsTrans Cand candLe := ⟨candLe_trans⟩

lemma carve_mask_spec (maxSill : ℚ) :
    ∀ (l : List Cand) (st : (ℕ → ℚ) × (ℕ → Bool)) (f : ℕ),
      (l.foldl (carveStep maxSill) st).2 f =
        (st.2 f || l.any fun c => decide (f ∈ c.2.2))
  | [], st, f => by simp
  | c :: t, st, f => by
      rw [List.foldl_cons, carve_mask_spec maxSill t _ f, List.any_cons]
      show ((st.2 f || decide (f ∈ c.2.2)) ||
          t.any fun c => decide (f ∈ c.2.2)) =
        (st.2 f || (decide (f ∈ c.2.2) || t.any fun c => decide (f ∈ c.2.2)))
      exact Bool.or_assoc _ _ _

lemma updates_frame {f : ℕ} :
    ∀ (l : List (ℕ × ℚ)) (g : ℕ → ℚ), (∀ p ∈ l, p.1 ≠ f) →
      (l.foldl (fun g pc => updateQ g pc.1 pc.2) g) f = g f
  | [], _, _ => rfl
  | p :: t, g, hp => by
      rw [List.foldl_cons,
        updates_frame t _ (fun q hq => hp q (List.mem_cons_of_mem _ hq))]
      unfold updateQ
      exact if_neg fun he => hp p (List.mem_cons_self p t) he.symm

lemma carveCapturePath_frame {h : ℕ → ℚ} {path : List ℕ} {maxSill : ℚ}
    {f : ℕ} (hf : f ∉ path) : carveCapturePath h path maxSill f = h f := by
  unfold carveCapturePath
  split
  · rfl
  · split
    · rfl
    · refine updates_frame _ _ ?_
      intro p hp
      exact fun he => hf (he ▸ (List.of_mem_zip hp).1)

lemma carve_height_frame (maxSill : ℚ) :
    ∀ (l : List Cand) (st : (ℕ → ℚ) × (ℕ → Bool)) (f : ℕ),
      (∀ c ∈ l, f ∉ c.2.2) →
      (l.foldl (carveStep maxSill) st).1 f = st.1 f
  | [], _, _, _ => rfl
  | c :: t, st, f, hl => by
      rw [List.foldl_cons,
        carve_height_frame maxSill t _ f
          (fun d hd => hl d (List.mem_cons_of_mem _ hd))]
      exact carveCapturePath_frame (hl c (List.mem_cons_self c t))

/-- C5 (amended): in each capture iteration the candidates are stably
sorted by `(required_cut, -basin_size)` and exactly
`min(max(round(capture_fraction · count), 1 if fraction > 0), count)` of
them are selected — not `ceil(capture_fraction · count)`; every selected
candidate precedes every rejected one in that order; and the carve loop
records exactly the selected candidates' paths in `capture_paths_mask`
(each carved in place via `_carve_capture_path`), leaving the height raster
unchanged outside the selected paths. -/
theorem capture_selection_top_k (fraction maxSill : ℚ) (cands : List Cand)
    (h0 : ℕ → ℚ) (mask0 : ℕ → Bool) :
    (selectCaptures fraction cands).length =
      captureSelectCount fraction cands.length ∧
    (∀ a ∈ selectCaptures fraction cands, a ∈ cands) ∧
    (∀ a ∈ selectCaptures fraction cands,
      ∀ b ∈ (cands.insertionSort candLe).drop
        (captureSelectCount fraction cands.length),
      candLe a b) ∧
    (∀ f, (carveSelected fraction maxSill cands h0 mask0).2 f =
      (mask0 f ||
        (selectCaptures fraction cands).any fun c => decide (f ∈ c.2.2))) ∧
    (∀ f, (∀ c ∈ selectCaptures fraction cands, f ∉ c.2.2) →
      (carveSelected fraction maxSill cands h0 mask0).1 f = h0 f) := by
  have hperm := List.perm_insertionSort candLe cands
  have hlen : (cands.insertionSort candLe).length = cands.length :=
    hperm.length_eq
  have hsorted := List.sorted_insertionSort candLe cands
  refine ⟨?_, ?_, ?_, ?_, ?_⟩
  · unfold selectCaptures
    rw [List.length_take, hlen]
    exact Nat.min_eq_left (Nat.min_le_right _ _)
  · intro a ha
    exact hperm.mem_iff.mp (List.mem_of_mem_take ha)
  · intro a ha b hb
    have := hsorted
    rw [← List.take_append_drop (captureSelectCount fraction cands.length)
      (cands.insertionSort candLe)] at this
    exact (List.pairwise_append.mp this).2.2 a ha b hb
  · intro f
    exact carve_mask_spec maxSill _ _ f
  · intro f hf
    exact carve_height_frame maxSill _ _ f hf

attribute [local semireducible] Rat.add Rat.mul Rat.sub Rat.inv in
/-- Witness for C5's amended theorem on a concrete 4-candidate list with
`capture_fraction = 0.3`: exactly one candidate is selected, and the
height-frame conclusion is instantiated at a flat index outside every
selected path. -/
theorem capture_selection_top_k_witness :
    (selectCaptures (3 / 10)
      [((1 : ℚ), (-5 : ℤ), ([0, 1] : List ℕ)), (2, -4, [2, 3]),
        (0, -3, [4, 5]), (1, -9, [6, 7])]).length =
      captureSelectCount (3 / 10) 4 ∧
    ((∀ c ∈ selectCaptures (3 / 10)
        [((1 : ℚ), (-5 : ℤ), ([0, 1] : List ℕ)), (2, -4, [2, 3]),
          (0, -3, [4, 5]), (1, -9, [6, 7])], (9 : ℕ) ∉ c.2.2) ∧
      (carveSelected (3 / 10) 2
        [((1 : ℚ), (-5 : ℤ), ([0, 1] : List ℕ)), (2, -4, [2, 3]),
          (0, -3, [4, 5]), (1, -9, [6, 7])]
        (fun _ => 0) (fun _ => false)).1 9 = 0) :=
  ⟨(capture_selection_top_k (3 / 10) 2
      [((1 : ℚ), (-5 : ℤ), ([0, 1] : List ℕ)), (2, -4, [2, 3]),
        (0, -3, [4, 5]), (1, -9, [6, 7])]
      (fun _ => 0) (fun _ => false)).1,
    by decide,
    (capture_selection_top_k (3 / 10) 2
      [((1 : ℚ), (-5 : ℤ), ([0, 1] : List ℕ)), (2, -4, [2, 3]),
        (0, -3, [4, 5]), (1, -9, [6, 7])]
      (fun _ => 0) (fun _ => false)).2.2.2.2 9 (by decide)⟩

attribute [local semireducible] Rat.add Rat.mul Rat.sub Rat.inv in
/-- C5 (counterexample to the claim as stated): with `capture_fraction = 0.3`
and 4 candidates the code's `int(round(0.3·4)) = 1` differs from the claimed
`ceil(0.3·4) = 2`: only the single best candidate is selected. -/
theorem capture_selection_ceil_counterexample :
    captureSelectCount (3 / 10) 4 = 1 ∧
    ⌈(3 / 10 : ℚ) * 4⌉ = 2 ∧
    (selectCaptures (3 / 10)
      [((1 : ℚ), (-5 : ℤ), ([] : List ℕ)), (2, -4, []), (0, -3, []), (1, -9, [])]).length = 1 := by
  refine ⟨by decide, ?_, by decide⟩
  rw [Int.ceil_eq_iff]; norm_num

/-! ### Priority-flood depression conditioning
(`terrain/hydrology.py` lines 456-559) -/

/-- Pointwise update of a flat boolean raster. -/
def updateB (g : ℕ → Bool) (i : ℕ) (v : Bool) : ℕ → Bool :=
  fun j => if j = i then v else g j

/-- `_shift_bool(mask, dy, dx)` (hydrology lines 2021-2035):
`out[y, x] = mask[y - dy, x - dx]`, fill `False`. -/
def shiftBoolVal (H W : ℕ) (g : ℕ → ℕ → Bool) (d : ℤ × ℤ) (y x : ℕ) : Bool :=
  if inb H W ((y : ℤ) - d.1) ((x : ℤ) - d.2)
  then g ((y : ℤ) - d.1).toNat ((x : ℤ) - d.2).toNat else false

/-- `_coast_mask(land_mask)` (hydrology lines 1629-1634): land cells with an
8-neighbouring ocean cell. -/
def coastMask (H W : ℕ) (land : ℕ → ℕ → Bool) (y x : ℕ) : Bool :=
  land y x &&
    (List.range 8).any fun i =>
      shiftBoolVal H W (fun a b => ! land a b) (DIRECTIONS8.getD i (0, 0)) y x

/-- Flat edge predicate (`edge` array, hydrology lines 478-482). -/
def edgeCell (H W : ℕ) (f : ℕ) : Bool :=
  decide (f / W = 0) || decide (f / W = H - 1) ||
  decide (f % W = 0) || decide (f % W = W - 1)

/-- `np.argmin` over the land cells of a flat raster: first flat index
attaining the minimum (hydrology lines 486-487). -/
def argminLand (n : ℕ) (landF : ℕ → Bool) (vals : ℕ → ℚ) : ℕ :=
  match (List.range n).filter landF with
  | [] => 0
  | h :: t => t.foldl (fun best f => if vals f < vals best then f else best) h

/-- State of the priority-flood loop: the filled raster, visited set, flood
parents, chronological pop order, and the heap contents. -/
structure FloodState where
  filled : ℕ → ℚ
  visited : ℕ → Bool
  parent : ℕ → Option ℕ
  popOrder : List ℕ
  heap : List (ℚ × ℕ)

/-- The lexicographic minimum of the heap contents — exactly the element
`heapq.heappop` returns for `(elevation, flat_index)` tuples. -/
def heapMin (l : List (ℚ × ℕ)) : Option (ℚ × ℕ) :=
  l.foldl (fun acc e =>
    match acc with
    | none => some e
    | some m => if e.1 < m.1 ∨ (e.1 = m.1 ∧ e.2 < m.2) then some e else some m)
    none

/-- Neighbour handling inside the flood loop (hydrology lines 503-519):
unvisited land neighbours are raised to `cur_h + eps` when not above the
popped cell, get their flood parent recorded, and are pushed. -/
def floodNeighborStep (H W : ℕ) (landF : ℕ → Bool) (eps curH : ℚ) (flat : ℕ)
    (st : FloodState) (d : ℤ × ℤ) : FloodState :=
  let ny := ((flat / W : ℕ) : ℤ) + d.1
  let nx := ((flat % W : ℕ) : ℤ) + d.2
  if inb H W ny nx then
    let nflat := ny.toNat * W + nx.toNat
    if st.visited nflat || ! landF nflat then st
    else
      let nval := st.filled nflat
      let nextH := if nval ≤ curH then curH + eps else nval
      { filled := if nval ≤ curH then updateQ st.filled nflat nextH else st.filled
        visited := updateB st.visited nflat true
        parent := fun j => if j = nflat then some flat else st.parent j
        popOrder := st.popOrder
        heap := (nextH, nflat) :: st.heap }
  else st

/-- The fuelled flood loop (`while heap:`); each cell is pushed at most once,
so `H·W` iterations drain the heap. -/
def floodLoop (H W : ℕ) (landF : ℕ → Bool) (eps : ℚ) :
    ℕ → FloodState → FloodState
  | 0, st => st
  | fuel + 1, st =>
      match heapMin st.heap with
      | none => st
      | some top =>
          floodLoop H W landF eps fuel
            (DIRECTIONS8.foldl (floodNeighborStep H W landF eps top.1 top.2)
              { st with heap := st.heap.erase top
                        popOrder := st.popOrder ++ [top.2] })

/-- The seed cells (hydrology lines 478-487): coastal or border land cells,
falling back to the lowest land cell when none qualify. -/
def floodSeeds (H W : ℕ) (land : ℕ → ℕ → Bool) (original : ℕ → ℚ) : List ℕ :=
  let s0 := (List.range (H * W)).filter fun f =>
    flattenB W land f && (coastMask H W land (f / W) (f % W) || edgeCell H W f)
  if s0.isEmpty then [argminLand (H * W) (flattenB W land) original] else s0

/-- The flood phase: seeds marked visited and pushed, then the heap loop. -/
def floodRun (H W : ℕ) (land : ℕ → ℕ → Bool) (eps : ℚ) (original : ℕ → ℚ) :
    FloodState :=
  floodLoop H W (flattenB W land) eps (H * W)
    { filled := original
      visited := fun f => (floodSeeds H W land original).contains f
      parent := fun _ => none
      popOrder := []
      heap := (floodSeeds H W land original).map fun f => (original f, f) }

/-- The breach relaxation (hydrology lines 521-529), written pointwise (the
`np.any(shallow)` guard only skips a no-op). -/
def floodBreach (W : ℕ) (land : ℕ → ℕ → Bool) (original : ℕ → ℚ)
    (eps breachMax : ℚ) (breachEnabled : Bool) (filled1 : ℕ → ℚ) : ℕ → ℚ :=
  if breachEnabled && decide (0 < breachMax) then fun f =>
    let delta := max 0 (filled1 f - original f)
    if flattenB W land f ∧ 0 < delta ∧ delta ≤ breachMax then
      let relaxed := original f + delta * min 1 (max 0 (delta / breachMax))
      if 0 < eps then max relaxed (original f + eps) else relaxed
    else filled1 f
  else filled1

/-- `raised_mask` (hydrology line 531). -/
def floodRaised (W : ℕ) (land : ℕ → ℕ → Bool) (original filled2 : ℕ → ℚ)
    (f : ℕ) : Prop :=
  flattenB W land f = true ∧ original f + 1 / 1000000000 < filled2 f

instance (W : ℕ) (land : ℕ → ℕ → Bool) (original filled2 : ℕ → ℚ) (f : ℕ) :
    Decidable (floodRaised W land original filled2 f) := by
  unfold floodRaised; infer_instance

/-- The ε micro-perturbation and parent-tree drop restoration (hydrology
lines 532-556). -/
def floodMicro (H W : ℕ) (land : ℕ → ℕ → Bool) (original : ℕ → ℚ) (eps : ℚ)
    (noise : ℕ → ℕ → ℚ) (st : FloodState) (filled2 : ℕ → ℚ) : ℕ → ℚ :=
  if 0 < eps ∧ (List.range (H * W)).any
      (fun f => decide (floodRaised W land original filled2 f)) then
    st.popOrder.foldl (fun acc flat =>
      if floodRaised W land original filled2 flat then
        match st.parent flat with
        | some p =>
            if acc flat < acc p + max (eps - 2 * max 0 (min (eps * (48 / 100)) (1 / 50)))
                (1 / 1000000) then
              updateQ acc flat
                (acc p + max (eps - 2 * max 0 (min (eps * (48 / 100)) (1 / 50)))
                  (1 / 1000000))
            else acc
        | none => acc
      else acc)
      (fun f =>
        if floodRaised W land original filled2 f then
          filled2 f + flatten W noise f * max 0 (min (eps * (48 / 100)) (1 / 50))
        else filled2 f)
  else filled2

/-- `_priority_flood_fill(height, land_mask, epsilon_m=…, breach_enabled=…,
breach_max_saddle_m=…, rng=…)` (hydrology lines 456-559).  The RNG only
seeds the `uniform(-1, 1)` micro-noise field, taken here as the parameter
`noise`. -/
def priorityFloodFill (H W : ℕ) (height : ℕ → ℕ → ℚ) (land : ℕ → ℕ → Bool)
    (epsilonM : ℚ) (breachEnabled : Bool) (breachMax : ℚ)
    (noise : ℕ → ℕ → ℚ) : ℕ → ℚ :=
  if ! anyLand H W land then flatten W height
  else
    fun f =>
      if flattenB W land f then
        max
          (floodMicro H W land (flatten W height) (max epsilonM 0) noise
            (floodRun H W land (max epsilonM 0) (flatten W height))
            (floodBreach W land (flatten W height) (max epsilonM 0) breachMax
              breachEnabled
              (floodRun H W land (max epsilonM 0) (flatten W height)).filled) f)
          (flatten W height f)
      else
        floodMicro H W land (flatten W height) (max epsilonM 0) noise
          (floodRun H W land (max epsilonM 0) (flatten W height))
          (floodBreach W land (flatten W height) (max epsilonM 0) breachMax
            breachEnabled
            (floodRun H W land (max epsilonM 0) (flatten W height)).filled) f

lemma floodNeighborStep_frame {H W : ℕ} {landF : ℕ → Bool} {eps curH : ℚ}
    {flat : ℕ} {st : FloodState} {d : ℤ × ℤ} {original : ℕ → ℚ}
    (hst : ∀ f, landF f = false → st.filled f = original f) :
    ∀ f, landF f = false →
      (floodNeighborStep H W landF eps curH flat st d).filled f = original f := by
  intro f hf
  unfold floodNeighborStep
  by_cases hin : inb H W (((flat / W : ℕ) : ℤ) + d.1) (((flat % W : ℕ) : ℤ) + d.2)
  · rw [if_pos hin]
    by_cases hskip : st.visited ((((flat / W : ℕ) : ℤ) + d.1).toNat * W +
        (((flat % W : ℕ) : ℤ) + d.2).toNat) ||
        ! landF ((((flat / W : ℕ) : ℤ) + d.1).toNat * W +
          (((flat % W : ℕ) : ℤ) + d.2).toNat)
    · rw [if_pos hskip]; exact hst f hf
    · rw [if_neg hskip]
      simp only []
      split
      · unfold updateQ
        split
        · rename_i hj
          rw [Bool.or_eq_true, Bool.not_eq_true'] at hskip
          push_neg at hskip
          rw [hj] at hf
          exact absurd hf hskip.2
        · exact hst f hf
      · exact hst f hf
  · rw [if_neg hin]; exact hst f hf

lemma floodLoop_frame {H W : ℕ} {landF : ℕ → Bool} {eps : ℚ}
    {original : ℕ → ℚ} :
    ∀ fuel (st : FloodState),
      (∀ f, landF f = false → st.filled f = original f) →
      ∀ f, landF f = false →
        (floodLoop H W landF eps fuel st).filled f = original f := by
  intro fuel
  induction fuel with
  | zero => exact fun st hst f hf => hst f hf
  | succ n ih =>
      intro st hst f hf
      unfold floodLoop
      cases htop : heapMin st.heap with
      | none => exact hst f hf
      | some top =>
          simp only []
          refine ih _ ?_ f hf
          exact @foldl_preserve _ _
            (fun s : FloodState =>
              ∀ f, landF f = false → s.filled f = original f)
            (floodNeighborStep H W landF eps top.1 top.2)
            (fun s a hs => floodNeighborStep_frame hs) DIRECTIONS8 _ hst

lemma floodBreach_frame {W : ℕ} {land : ℕ → ℕ → Bool} {original : ℕ → ℚ}
    {eps breachMax : ℚ} {breachEnabled : Bool} {filled1 : ℕ → ℚ} {f : ℕ}
    (hf : flattenB W land f = false) :
    floodBreach W land original eps breachMax breachEnabled filled1 f =
      filled1 f := by
  unfold floodBreach
  split
  · simp only []
    split
    · rename_i hcond
      rw [hf] at hcond
      exact absurd hcond.1 (by simp)
    · rfl
  · rfl

lemma floodMicro_frame {H W : ℕ} {land : ℕ → ℕ → Bool} {original : ℕ → ℚ}
    {eps : ℚ} {noise : ℕ → ℕ → ℚ} {st : FloodState} {filled2 : ℕ → ℚ} {f : ℕ}
    (hf : flattenB W land f = false) :
    floodMicro H W land original eps noise st filled2 f = filled2 f := by
  unfold floodMicro
  split
  · have hbase : ∀ f', flattenB W land f' = false →
        (fun f' =>
          if floodRaised W land original filled2 f' then
            filled2 f' + flatten W noise f' * max 0 (min (eps * (48 / 100)) (1 / 50))
          else filled2 f') f' = filled2 f' := by
      intro f' hf'
      simp only []
      rw [if_neg]
      intro hr
      have h1 := hr.1
      rw [hf'] at h1
      cases h1
    refine @foldl_preserve _ _
      (fun acc : ℕ → ℚ =>
        ∀ f', flattenB W land f' = false → acc f' = filled2 f')
      _ ?_ st.popOrder _ hbase f hf
    intro acc flat hacc f' hf'
    by_cases hr : floodRaised W land original filled2 flat
    · rw [if_pos hr]
      cases hp : st.parent flat with
      | none => exact hacc f' hf'
      | some p =>
          simp only [hp]
          by_cases hlt : acc flat < acc p +
              max (eps - 2 * max 0 (min (eps * (48 / 100)) (1 / 50))) (1 / 1000000)
          · rw [if_pos hlt]
            unfold updateQ
            by_cases hj : f' = flat
            · subst hj
              have h1 := hr.1
              rw [hf'] at h1
              cases h1
            · rw [if_neg hj]
              exact hacc f' hf'
          · rw [if_neg hlt]
            exact hacc f' hf'
    · rw [if_neg hr]
      exact hacc f' hf'
  · rfl

/-- C10: `_priority_flood_fill` is monotone non-lowering on land and a no-op
on ocean: for every heightfield, land mask, epsilon, breach setting and
micro-noise field (hence every RNG stream), land cells only rise (even after
breach relaxation and the ε micro-perturbation) and non-land cells are
returned exactly unchanged. -/
theorem priority_flood_fill_monotone_frame (H W : ℕ) (height : ℕ → ℕ → ℚ)
    (land : ℕ → ℕ → Bool) (epsilonM : ℚ) (breachEnabled : Bool)
    (breachMax : ℚ) (noise : ℕ → ℕ → ℚ) :
    (∀ f, flattenB W land f = true →
      flatten W height f ≤
        priorityFloodFill H W height land epsilonM breachEnabled breachMax
          noise f) ∧
    (∀ f, flattenB W land f = false →
      priorityFloodFill H W height land epsilonM breachEnabled breachMax
        noise f = flatten W height f) := by
  unfold priorityFloodFill
  by_cases hany : anyLand H W land
  · simp only [hany, Bool.not_true, Bool.false_eq_true, if_false]
    constructor
    · intro f hf
      simp only [hf, if_true]
      exact le_max_right _ _
    · intro f hf
      simp only [hf, Bool.false_eq_true, if_false]
      rw [floodMicro_frame hf, floodBreach_frame hf]
      exact floodLoop_frame (H * W) _ (fun _ _ => rfl) f hf
  · have hany' : anyLand H W land = false := by simpa using hany
    refine ⟨fun f _ => ?_, fun f _ => ?_⟩ <;> simp [hany']

attribute [local semireducible] Rat.add Rat.mul Rat.sub Rat.inv in
/-- Witness for C10 on a 1×2 grid with land only at `x = 0`: the land cell
does not sink and the ocean cell is exactly unchanged. -/
theorem priority_flood_fill_monotone_frame_witness :
    flatten 2 g12 0 ≤
      priorityFloodFill 1 2 g12 (fun _ x => decide (x = 0)) (1 / 50) true 25
        (fun _ _ => 1) 0 ∧
    priorityFloodFill 1 2 g12 (fun _ x => decide (x = 0)) (1 / 50) true 25
      (fun _ _ => 1) 1 = flatten 2 g12 1 :=
  ⟨(priority_flood_fill_monotone_frame 1 2 g12 (fun _ x => decide (x = 0))
      (1 / 50) true 25 (fun _ _ => 1)).1 0 (by decide),
   (priority_flood_fill_monotone_frame 1 2 g12 (fun _ x => decide (x = 0))
      (1 / 50) true 25 (fun _ _ => 1)).2 1 (by decide)⟩

/-! ### Flow accumulation order independence
(`compute_flow_d8`, `terrain/hydrology.py` lines 656-669)

The accumulators hold whole numbers (`np.ones` plus additions), modelled
exactly over `ℕ`.  `np.argsort(elev)[::-1]` is modelled as the reversal of a
stable ascending sort; the reference order demanded by the spec is the
descending sort with ties broken by lower flat index first.  The central
theorem shows the fold result is identical for **every** descending
processing order, so the unspecified tie behaviour of numpy's quicksort
cannot change the raster. -/

/-- Pointwise update of a flat natural raster. -/
def updateN (g : ℕ → ℕ) (i v : ℕ) : ℕ → ℕ := fun j => if j = i then v else g j

/-- One step of the accumulation loop (hydrology lines 664-667):
`accum[dst] += accum[src]` when `dst ≥ 0`. -/
def accumStep (dest : ℕ → Option ℕ) (acc : ℕ → ℕ) (src : ℕ) : ℕ → ℕ :=
  match dest src with
  | none => acc
  | some d => updateN acc d (acc d + acc src)

/-- The accumulation fold over a processing order, starting from
`np.ones` (line 661). -/
def accumOf (dest : ℕ → Option ℕ) (order : List ℕ) : ℕ → ℕ :=
  order.foldl (accumStep dest) fun _ => 1

/-- Stable ascending key order (ties by lower flat index). -/
def ascKey (key : ℕ → ℚ) (a b : ℕ) : Prop :=
  key a < key b ∨ (key a = key b ∧ a ≤ b)

instance (key : ℕ → ℚ) : DecidableRel (ascKey key) := fun a b => by
  unfold ascKey; infer_instance

lemma ascKey_total (key : ℕ → ℚ) : ∀ a b, ascKey key a b ∨ ascKey key b a := by
  intro a b
  unfold ascKey
  rcases lt_trichotomy (key a) (key b) with h | h | h
  · exact Or.inl (Or.inl h)
  · rcases le_total a b with h2 | h2
    · exact Or.inl (Or.inr ⟨h, h2⟩)
    · exact Or.inr (Or.inr ⟨h.symm, h2⟩)
  · exact Or.inr (Or.inl h)

lemma ascKey_trans (key : ℕ → ℚ) :
    ∀ a b c, ascKey key a b → ascKey key b c → ascKey key a c := by
  intro a b c hab hbc
  unfold ascKey at *
  rcases hab with h | ⟨he, h⟩ <;> rcases hbc with h' | ⟨he', h'⟩
  · exact Or.inl (h.trans h')
  · exact Or.inl (he' ▸ h)
  · exact Or.inl (he ▸ h')
  · exact Or.inr ⟨he.trans he', h.trans h'⟩

instance (key : ℕ → ℚ) : IsTotal ℕ (ascKey key) := ⟨ascKey_total key⟩
instance (key : ℕ → ℚ) : IsTrans ℕ (ascKey key) := ⟨ascKey_trans key⟩

/-- Descending key order with ties broken by lower flat index first — the
reference traversal demanded by the spec. -/
def descKey (key : ℕ → ℚ) (a b : ℕ) : Prop :=
  key b < key a ∨ (key b = key a ∧ a ≤ b)

instance (key : ℕ → ℚ) : DecidableRel (descKey key) := fun a b => by
  unfold descKey; infer_instance

lemma descKey_total (key : ℕ → ℚ) : ∀ a b, descKey key a b ∨ descKey key b a := by
  intro a b
  unfold descKey
  rcases lt_trichotomy (key b) (key a) with h | h | h
  · exact Or.inl (Or.inl h)
  · rcases le_total a b with h2 | h2
    · exact Or.inl (Or.inr ⟨h, h2⟩)
    · exact Or.inr (Or.inr ⟨h.symm, h2⟩)
  · exact Or.inr (Or.inl h)

lemma descKey_trans (key : ℕ → ℚ) :
    ∀ a b c, descKey key a b → descKey key b c → descKey key a c := by
  intro a b c hab hbc
  unfold descKey at *
  rcases hab with h | ⟨he, h⟩ <;> rcases hbc with h' | ⟨he', h'⟩
  · exact Or.inl (h'.trans h)
  · exact Or.inl (he' ▸ h)
  · exact Or.inl (he ▸ h')
  · exact Or.inr ⟨he'.trans he, h.trans h'⟩

instance (key : ℕ → ℚ) : IsTotal ℕ (descKey key) := ⟨descKey_total key⟩
instance (key : ℕ → ℚ) : IsTrans ℕ (descKey key) := ⟨descKey_trans key⟩

/-- The code's processing order: `np.argsort(elev_flat)[::-1]`
(hydrology line 660), with argsort modelled as the stable ascending sort. -/
def descOrderCode (n : ℕ) (key : ℕ → ℚ) : List ℕ :=
  ((List.range n).insertionSort (ascKey key)).reverse

/-- The spec's reference order: descending elevation, ties broken by lower
flat index first. -/
def descOrderRef (n : ℕ) (key : ℕ → ℚ) : List ℕ :=
  (List.range n).insertionSort (descKey key)

/-- `s` reaches `c` along the destination chain with every hop taken from a
cell in `A` (the processed set). -/
inductive ReachW (dest : ℕ → Option ℕ) (A : Finset ℕ) : ℕ → ℕ → Prop where
  | refl (c : ℕ) : ReachW dest A c c
  | step {s t c : ℕ} : s ∈ A → dest s = some t → ReachW dest A t c →
      ReachW dest A s c

lemma ReachW.mono {dest : ℕ → Option ℕ} {A B : Finset ℕ} (hAB : A ⊆ B) :
    ∀ {s c : ℕ}, ReachW dest A s c → ReachW dest B s c := by
  intro s c h
  induction h with
  | refl c => exact ReachW.refl c
  | step hs hd _ ih => exact ReachW.step (hAB hs) hd ih

/-- The destination chain from a fixed start is unique, so two reachable
endpoints outside the processed set coincide. -/
lemma ReachW.unique {dest : ℕ → Option ℕ} {A : Finset ℕ} :
    ∀ {s x y : ℕ}, ReachW dest A s x → ReachW dest A s y → x ∉ A → y ∉ A →
      x = y := by
  intro s x y hx hy hxA hyA
  induction hx with
  | refl c =>
      cases hy with
      | refl => rfl
      | step hs _ _ => exact absurd hs hxA
  | step hs hd _ ih =>
      cases hy with
      | refl => exact absurd hs hyA
      | step hs' hd' hy' =>
          rw [hd] at hd'
          cases hd'
          exact ih hy' hxA

lemma reachW_snoc {dest : ℕ → Option ℕ} {A : Finset ℕ} {d : ℕ} :
    ∀ {s u : ℕ}, ReachW dest A s u → u ∈ A → dest u = some d →
      ReachW dest A s d := by
  intro s u h
  induction h with
  | refl c => exact fun hc hcd => ReachW.step hc hcd (ReachW.refl d)
  | step hs hd' _ ih => exact fun hu hud => ReachW.step hs hd' (ih hu hud)

/-- Adding the next-processed cell `u` to the processed set creates exactly
the chains that pass through `u` into its destination `d`; all cells already
processed sit at or above `u`'s elevation. -/
lemma reachW_insert_iff {elev : ℕ → ℚ} {dest : ℕ → Option ℕ}
    (hd : ∀ s t, dest s = some t → elev t < elev s)
    {A : Finset ℕ} {u d : ℕ} (hu : u ∉ A) (hud : dest u = some d)
    (hA : ∀ a ∈ A, elev u ≤ elev a) {s c : ℕ} :
    ReachW dest (insert u A) s c ↔
      ReachW dest A s c ∨ (c = d ∧ ReachW dest A s u) := by
  have hdA : d ∉ A := fun hdA =>
    absurd (hA d hdA) (not_le.mpr (hd u d hud))
  constructor
  · intro h
    induction h with
    | refl c => exact Or.inl (ReachW.refl c)
    | @step s' t' c' hs hdest hrest ih =>
        rcases Finset.mem_insert.mp hs with rfl | hsA
        · rw [hud] at hdest
          cases hdest
          rcases ih with hdc | ⟨rfl, hdu⟩
          · cases hdc with
            | refl => exact Or.inr ⟨rfl, ReachW.refl s'⟩
            | step hd' _ _ => exact absurd hd' hdA
          · cases hdu with
            | refl => exact absurd (hd _ _ hud) (lt_irrefl _)
            | step hd' _ _ => exact absurd hd' hdA
        · rcases ih with hc | ⟨rfl, hu'⟩
          · exact Or.inl (ReachW.step hsA hdest hc)
          · exact Or.inr ⟨rfl, ReachW.step hsA hdest hu'⟩
  · rintro (h | ⟨rfl, h⟩)
    · exact h.mono (Finset.subset_insert u A)
    · exact reachW_snoc (h.mono (Finset.subset_insert u A))
        (Finset.mem_insert_self u A) hud

/-- With no destination, adding `u` to the processed set creates no new
chains at all. -/
lemma reachW_insert_none {dest : ℕ → Option ℕ} {A : Finset ℕ} {u : ℕ}
    (hud : dest u = none) {s c : ℕ} :
    ReachW dest (insert u A) s c ↔ ReachW dest A s c := by
  constructor
  · intro h
    induction h with
    | refl c => exact ReachW.refl c
    | step hs hdest _ ih =>
        rcases Finset.mem_insert.mp hs with rfl | hsA
        · rw [hud] at hdest; cases hdest
        · exact ReachW.step hsA hdest ih
  · exact fun h => h.mono (Finset.subset_insert u A)

open Classical in
/-- Counting invariant for one accumulation step: when every processed cell
sits at or above `u`, pushing `u`'s accumulator into its destination
maintains `acc c = #\x7bs < n reaching c through processed cells\x7d`. -/
lemma accumStep_inv {n : ℕ} {elev : ℕ → ℚ} {dest : ℕ → Option ℕ}
    (hd : ∀ s t, dest s = some t → elev t < elev s)
    {A : Finset ℕ} {u : ℕ} (hu : u ∉ A) (hun : u < n)
    (hA : ∀ a ∈ A, elev u ≤ elev a) (acc : ℕ → ℕ)
    (hacc : ∀ c, c < n → acc c =
      ((Finset.range n).filter fun s => ReachW dest A s c).card) :
    ∀ c, c < n → accumStep dest acc u c =
      ((Finset.range n).filter fun s => ReachW dest (insert u A) s c).card := by
  intro c hc
  unfold accumStep
  cases hud : dest u with
  | none =>
      change acc c = _
      rw [hacc c hc]
      congr 1
      apply Finset.filter_congr
      intro s _
      exact (reachW_insert_none hud).symm
  | some d =>
      have hdA : d ∉ A := fun hdA =>
        absurd (hA d hdA) (not_le.mpr (hd u d hud))
      change updateN acc d (acc d + acc u) c = _
      by_cases hcd : c = d
      · subst hcd
        unfold updateN
        rw [if_pos rfl]
        have hsplit :
            ((Finset.range n).filter fun s => ReachW dest (insert u A) s c) =
              ((Finset.range n).filter fun s => ReachW dest A s c) ∪
              ((Finset.range n).filter fun s => ReachW dest A s u) := by
          rw [← Finset.filter_or]
          apply Finset.filter_congr
          intro s _
          constructor
          · intro h
            rcases (reachW_insert_iff hd hu hud hA).mp h with h | ⟨_, h⟩
            · exact Or.inl h
            · exact Or.inr h
          · rintro (h | h)
            · exact (reachW_insert_iff hd hu hud hA).mpr (Or.inl h)
            · exact (reachW_insert_iff hd hu hud hA).mpr (Or.inr ⟨rfl, h⟩)
        rw [hsplit, Finset.card_union_of_disjoint, hacc c hc, hacc u hun]
        rw [Finset.disjoint_filter]
        intro s _ hsc hsu
        have : c = u := ReachW.unique hsc hsu hdA hu
        subst this
        exact absurd (hd _ _ hud) (lt_irrefl _)
      · unfold updateN
        rw [if_neg hcd, hacc c hc]
        congr 1
        apply Finset.filter_congr
        intro s _
        constructor
        · exact fun h => (reachW_insert_iff hd hu hud hA).mpr (Or.inl h)
        · intro h
          rcases (reachW_insert_iff hd hu hud hA).mp h with h | ⟨hcd', _⟩
          · exact h
          · exact absurd hcd' hcd

open Classical in
/-- Master invariant: folding the accumulation step over any descending
remainder list extends the closed-form count to the whole processed set. -/
lemma accum_fold_closed {n : ℕ} {elev : ℕ → ℚ} {dest : ℕ → Option ℕ}
    (hd : ∀ s t, dest s = some t → elev t < elev s) :
    ∀ (L : List ℕ) (A : Finset ℕ) (acc : ℕ → ℕ),
      (∀ a ∈ A, ∀ l ∈ L, elev l ≤ elev a) →
      L.Pairwise (fun a b => elev b ≤ elev a) →
      (∀ l ∈ L, l ∉ A) → L.Nodup → (∀ l ∈ L, l < n) →
      (∀ c, c < n → acc c =
        ((Finset.range n).filter fun s => ReachW dest A s c).card) →
      ∀ c, c < n → (L.foldl (accumStep dest) acc) c =
        ((Finset.range n).filter fun s =>
          ReachW dest (A ∪ L.toFinset) s c).card := by
  intro L
  induction L with
  | nil =>
      intro A acc _ _ _ _ _ hacc c hc
      simpa using hacc c hc
  | cons u L ih =>
      intro A acc hAL hpw hnA hnd hLn hacc c hc
      rw [List.foldl_cons]
      have hu : u ∉ A := hnA u (List.mem_cons_self u L)
      have hun : u < n := hLn u (List.mem_cons_self u L)
      have hA : ∀ a ∈ A, elev u ≤ elev a := fun a ha =>
        hAL a ha u (List.mem_cons_self u L)
      have hstep := accumStep_inv hd hu hun hA acc hacc
      have hset : insert u A ∪ L.toFinset = A ∪ (u :: L).toFinset := by
        rw [List.toFinset_cons, Finset.insert_union, Finset.union_insert]
      have := ih (insert u A) (accumStep dest acc u)
        (by
          intro a ha l hl
          rcases Finset.mem_insert.mp ha with rfl | haA
          · exact (List.pairwise_cons.mp hpw).1 l hl
          · exact hAL a haA l (List.mem_cons_of_mem u hl))
        (List.pairwise_cons.mp hpw).2
        (by
          intro l hl
          rw [Finset.mem_insert]
          push_neg
          exact ⟨fun he => (List.nodup_cons.mp hnd).1 (he ▸ hl),
            hnA l (List.mem_cons_of_mem u hl)⟩)
        (List.nodup_cons.mp hnd).2
        (fun l hl => hLn l (List.mem_cons_of_mem u hl))
        hstep c hc
      rw [this, hset]

lemma accumOf_high {n : ℕ} {dest : ℕ → Option ℕ}
    (hdlt : ∀ s t, dest s = some t → t < n) (order : List ℕ) {c : ℕ}
    (hc : n ≤ c) : accumOf dest order c = 1 := by
  unfold accumOf
  refine @foldl_preserve _ _ (fun acc : ℕ → ℕ => acc c = 1) _ ?_ order _ rfl
  intro acc src hacc
  unfold accumStep
  cases hud : dest src with
  | none => exact hacc
  | some d =>
      change updateN acc d (acc d + acc src) c = 1
      unfold updateN
      rw [if_neg, hacc]
      intro hcd
      exact absurd (hdlt src d hud) (not_lt.mpr (hcd ▸ hc))

open Classical in
/-- Order irrelevance: every descending processing order that enumerates the
grid once yields the same accumulation raster. -/
lemma accumOf_order_irrelevant {n : ℕ} {elev : ℕ → ℚ} {dest : ℕ → Option ℕ}
    (hd : ∀ s t, dest s = some t → t < n ∧ elev t < elev s)
    (L1 L2 : List ℕ) (h1 : L1.Perm (List.range n))
    (h2 : L2.Perm (List.range n))
    (hs1 : L1.Pairwise fun a b => elev b ≤ elev a)
    (hs2 : L2.Pairwise fun a b => elev b ≤ elev a) :
    accumOf dest L1 = accumOf dest L2 := by
  have hclosed : ∀ (L : List ℕ), L.Perm (List.range n) →
      (L.Pairwise fun a b => elev b ≤ elev a) →
      ∀ c, c < n → accumOf dest L c =
        ((Finset.range n).filter fun s =>
          ReachW dest (Finset.range n) s c).card := by
    intro L hperm hpw c hc
    have hbase : ∀ c, c < n → (fun _ : ℕ => 1) c =
        ((Finset.range n).filter fun s => ReachW dest (∅ : Finset ℕ) s c).card := by
      intro c hc
      have : ((Finset.range n).filter fun s => ReachW dest (∅ : Finset ℕ) s c) =
          (Finset.range n).filter fun s => s = c := by
        apply Finset.filter_congr
        intro s _
        constructor
        · intro h
          cases h with
          | refl => rfl
          | step hs _ _ => exact absurd hs (Finset.not_mem_empty _)
        · rintro rfl; exact ReachW.refl s
      rw [this, Finset.filter_eq', if_pos (Finset.mem_range.mpr hc)]
      rfl
    have hLford := accum_fold_closed (fun s t h => (hd s t h).2) L ∅
      (fun _ => 1) (by simp) hpw (by simp)
      (hperm.symm.nodup (List.nodup_range n))
      (fun l hl => List.mem_range.mp (hperm.mem_iff.mp hl)) hbase c hc
    have hset : (∅ ∪ L.toFinset : Finset ℕ) = Finset.range n := by
      apply Finset.ext
      intro a
      simp [hperm.mem_iff, List.mem_range]
    rw [accumOf, hLford, hset]
  funext c
  by_cases hc : c < n
  · rw [hclosed L1 h1 hs1 c hc, hclosed L2 h2 hs2 c hc]
  · rw [accumOf_high (fun s t h => (hd s t h).1) L1 (not_lt.mp hc),
      accumOf_high (fun s t h => (hd s t h).1) L2 (not_lt.mp hc)]

lemma inb_iff {H W : ℕ} {a b : ℤ} :
    inb H W a b = true ↔ 0 ≤ a ∧ a < H ∧ 0 ≤ b ∧ b < W := by
  simp [inb, and_assoc]

/-- `dest_flat` targets are inside the grid and strictly lower: the drop
selected by `compute_flow_d8` is strictly positive. -/
lemma destFlat_lt {H W : ℕ} {g : ℕ → ℕ → ℚ} {ocean : ℕ → ℕ → Bool} {s t : ℕ}
    (h : destFlat H W g ocean (s / W) (s % W) = some t) :
    t < H * W ∧ flatten W g t < flatten W g s := by
  obtain ⟨h0, hnone, hsome, hmax⟩ := d8Select_inv H W g (s / W) (s % W)
  unfold destFlat at h
  by_cases hoc : ocean (s / W) (s % W)
  · rw [if_pos hoc] at h; cases h
  · rw [if_neg hoc] at h
    by_cases hle : (d8Select H W g (s / W) (s % W)).1 ≤ 0
    · rw [if_pos hle] at h; cases h
    · rw [if_neg hle] at h
      cases hopt : (d8Select H W g (s / W) (s % W)).2.1 with
      | none => rw [(hnone hopt).2] at h; cases h
      | some i =>
          obtain ⟨hi8, hdropi, hpos, hdest2⟩ := hsome i hopt
          rw [hdest2] at h
          unfold shiftIdx at h
          by_cases hin : inb H W (((s / W : ℕ) : ℤ) - (DIRECTIONS8.getD i (0, 0)).1)
              (((s % W : ℕ) : ℤ) - (DIRECTIONS8.getD i (0, 0)).2)
          · rw [if_pos hin] at h
            obtain ⟨hy0, hyH, hx0, hxW⟩ := inb_iff.mp hin
            cases h
            set ay := ((s / W : ℕ) : ℤ) - (DIRECTIONS8.getD i (0, 0)).1 with hay
            set ax := ((s % W : ℕ) : ℤ) - (DIRECTIONS8.getD i (0, 0)).2 with hax
            have hnyH : ay.toNat < H := by omega
            have hnxW : ax.toNat < W := by omega
            have hW : 0 < W := lt_of_le_of_lt (Nat.zero_le _) hnxW
            have hdiv : (ay.toNat * W + ax.toNat) / W = ay.toNat := by
              rw [Nat.mul_comm, Nat.mul_add_div hW, Nat.div_eq_of_lt hnxW,
                Nat.add_zero]
            have hmod : (ay.toNat * W + ax.toNat) % W = ax.toNat := by
              rw [Nat.mul_comm, Nat.mul_add_mod, Nat.mod_eq_of_lt hnxW]
            constructor
            · calc ay.toNat * W + ax.toNat < ay.toNat * W + W := by
                    exact Nat.add_lt_add_left hnxW _
                _ = (ay.toNat + 1) * W := by ring
                _ ≤ H * W := Nat.mul_le_mul_right W (Nat.succ_le_of_lt hnyH)
            · -- the strictly positive selected drop gives a lower target
              unfold dropAt shiftVal at hdropi
              rw [← hay, ← hax] at hdropi
              rw [if_pos hin] at hdropi
              simp only [Option.map_some', Option.some.injEq] at hdropi
              have hlt : 0 < g (s / W) (s % W) - g ay.toNat ax.toNat := by
                rw [hdropi]
                exact lt_of_not_le hle
              unfold flatten
              rw [hdiv, hmod]
              linarith
          · rw [if_neg hin] at h; cases h

/-- The flow accumulation raster computed by `compute_flow_d8` (hydrology
lines 659-669) with `np.argsort(elev)[::-1]` modelled as a reversed stable
ascending sort. -/
def flowAccumCode (H W : ℕ) (g : ℕ → ℕ → ℚ) (ocean : ℕ → ℕ → Bool) : ℕ → ℕ :=
  accumOf (fun f => destFlat H W g ocean (f / W) (f % W))
    (descOrderCode (H * W) (flatten W g))

/-- The spec's reference sequential computation: same per-cell step, cells
visited in descending elevation order with ties broken by lower row-major
flat index first. -/
def flowAccumRefOrder (H W : ℕ) (g : ℕ → ℕ → ℚ) (ocean : ℕ → ℕ → Bool) :
    ℕ → ℕ :=
  accumOf (fun f => destFlat H W g ocean (f / W) (f % W))
    (descOrderRef (H * W) (flatten W g))

/-- C3: the accumulation raster computed by `compute_flow_d8` equals the
reference sequential computation (descending elevation, ties by lower flat
index first, accumulators initialised to 1 and pushed downstream).  The
proof shows the fold result is identical for every descending processing
order, so numpy's unspecified tie behaviour cannot change the raster. -/
theorem compute_flow_d8_accumulation_order (H W : ℕ) (g : ℕ → ℕ → ℚ)
    (ocean : ℕ → ℕ → Bool) :
    flowAccumCode H W g ocean = flowAccumRefOrder H W g ocean := by
  apply @accumOf_order_irrelevant _ (flatten W g) _
  · exact fun s t h => destFlat_lt h
  · exact (List.reverse_perm _).trans (List.perm_insertionSort _ _)
  · exact List.perm_insertionSort _ _
  · rw [descOrderCode, List.pairwise_reverse]
    have hs := List.sorted_insertionSort (ascKey (flatten W g)) (List.range (H * W))
    exact hs.imp (fun {a b} hab => by
      rcases hab with h | ⟨h, _⟩
      · exact le_of_lt h
      · exact le_of_eq h)
  · have hs := List.sorted_insertionSort (descKey (flatten W g)) (List.range (H * W))
    exact hs.imp (fun {a b} hab => by
      rcases hab with h | ⟨h, _⟩
      · exact le_of_lt h
      · exact le_of_eq h)

/-! ### Land-mask generation (`terrain/mask.py`, `terrain/noise.py`,
`terrain/metrics.py`)

Each `rng.uniform(-1, 1)` lattice draw is an oracle parameter
`lattice : octave → row → col → ℚ`; `np.sqrt` is the parameter `sqrtQ`. -/

/-- `MaskConfig` (config.py lines 15-28), float defaults as exact
rationals. -/
structure MaskConfig where
  target_land_fraction : ℚ := 36 / 100
  min_land_fraction : ℚ := 15 / 100
  max_land_fraction : ℚ := 65 / 100
  dominant_land_ratio : ℚ := 55 / 100
  fragmentation : ℚ := 1 / 5
  base_octaves : ℕ := 5
  warp_octaves : ℕ := 3
  warp_strength_px : ℚ := 28
  coast_bias_strength : ℚ := 7 / 10
  smooth_iterations : ℕ := 2
  threshold_relaxation : ℚ := 1 / 25

/-- The default `MaskConfig()`. -/
def defaultMaskConfig : MaskConfig := {}

/-- `_smoothstep(t) = t·t·(3 - 2t)` (noise.py lines 8-9). -/
def smoothstepQ (t : ℚ) : ℚ := t * t * (3 - 2 * t)

/-- `value_noise_2d(width, height, rng, res_x=…, res_y=…)` (noise.py lines
12-48) with the `(res_y+1)×(res_x+1)` uniform lattice as `grid`. -/
def valueNoise2d (width height resX resY : ℕ) (grid : ℕ → ℕ → ℚ) :
    ℕ → ℕ → ℚ := fun j k =>
  let xq : ℚ := (k * resX : ℕ) / (width : ℚ)
  let yq : ℚ := (j * resY : ℕ) / (height : ℚ)
  let x0 : ℕ := k * resX / width
  let y0 : ℕ := j * resY / height
  let x1 : ℕ := min (x0 + 1) resX
  let y1 : ℕ := min (y0 + 1) resY
  let tx := smoothstepQ (xq - x0)
  let ty := smoothstepQ (yq - y0)
  (grid y0 x0 * (1 - tx) + grid y0 x1 * tx) * (1 - ty) +
  (grid y1 x0 * (1 - tx) + grid y1 x1 * tx) * ty

/-- `fbm_noise(width, height, rng, base_res=…, octaves=…)` (noise.py lines
51-79): `lacunarity = 2`, `gain = 0.5`, amplitude-normalised. -/
def fbmNoise (width height : ℕ) (lattice : ℕ → ℕ → ℕ → ℚ)
    (baseRes octaves : ℕ) : ℕ → ℕ → ℚ := fun j k =>
  let aspect : ℚ := (width : ℚ) / (max height 1 : ℕ)
  let field := ((List.range octaves).map fun o =>
    let resY : ℕ := max 1 (baseRes * 2 ^ o)
    let resX : ℕ := max 1 (pyRound (((resY : ℕ) : ℚ) * aspect)).toNat
    ((1 / 2 : ℚ) ^ o) * valueNoise2d width height resX resY (lattice o) j k).sum
  let total := ((List.range octaves).map fun o => ((1 / 2 : ℚ) ^ o)).sum
  if total = 0 then field else field / total

/-- `bilinear_sample(field, sample_x, sample_y)` (noise.py lines 82-104);
negative indices produced by the `W - 1.001` clamp on degenerate axes wrap
around as in numpy. -/
def bilinearSample (H W : ℕ) (field : ℕ → ℕ → ℚ) (sx sy : ℚ) : ℚ :=
  let x := min (max sx 0) ((W : ℚ) - 1001 / 1000)
  let y := min (max sy 0) ((H : ℚ) - 1001 / 1000)
  let x0 : ℤ := Int.floor x
  let y0 : ℤ := Int.floor y
  let x1 : ℤ := min (x0 + 1) ((W : ℤ) - 1)
  let y1 : ℤ := min (y0 + 1) ((H : ℤ) - 1)
  let tx := x - (x0 : ℚ)
  let ty := y - (y0 : ℚ)
  let fi := fun (yy xx : ℤ) => field (yy.emod H).toNat (xx.emod W).toNat
  (fi y0 x0 * (1 - tx) + fi y0 x1 * tx) * (1 - ty) +
  (fi y1 x0 * (1 - tx) + fi y1 x1 * tx) * ty

/-- `warp_field(field, warp_x, warp_y, strength_px=…)` (noise.py lines
107-114). -/
def warpField (H W : ℕ) (field wx wy : ℕ → ℕ → ℚ) (strength : ℚ) :
    ℕ → ℕ → ℚ := fun y x =>
  bilinearSample H W field ((x : ℚ) + wx y x * strength)
    ((y : ℚ) + wy y x * strength)

/-- `_majority_filter(mask)` (mask.py lines 108-122): 3×3 zero-padded
neighbourhood sum at least 5. -/
def majorityFilter (H W : ℕ) (m : ℕ → ℕ → Bool) : ℕ → ℕ → Bool := fun y x =>
  decide (5 ≤
    (([(-1, -1), (-1, 0), (-1, 1), (0, -1), (0, 0), (0, 1), (1, -1), (1, 0),
        (1, 1)] : List (ℤ × ℤ)).map fun d =>
      if inb H W ((y : ℤ) + d.1) ((x : ℤ) + d.2) &&
          m ((y : ℤ) + d.1).toNat ((x : ℤ) + d.2).toNat then (1 : ℕ)
      else 0).sum)

/-- `_smooth_mask(mask, iterations=…)` (mask.py lines 101-105). -/
def smoothMask (H W : ℕ) (m : ℕ → ℕ → Bool) (iterations : ℕ) :
    ℕ → ℕ → Bool :=
  (majorityFilter H W)^[iterations] m

/-- `ConnectivityMetrics` (metrics.py lines 10-18). -/
structure ConnectivityMetrics where
  num_components : ℕ
  largest_component_area : ℕ
  total_land_pixels : ℕ
  largest_land_ratio : ℚ
  land_fraction : ℚ
deriving DecidableEq

/-- One DFS expansion over the 8-connected component stack (metrics.py lines
48-63); marks cells visited when pushed. -/
def ccExpand (H W : ℕ) (mask : ℕ → ℕ → Bool) :
    ℕ → List ℕ → (ℕ → Bool) → ℕ → ((ℕ → Bool) × ℕ)
  | 0, _, visited, count => (visited, count)
  | _ + 1, [], visited, count => (visited, count)
  | fuel + 1, idx :: rest, visited, count =>
      let y := idx / W
      let x := idx % W
      let push := ([(-1, -1), (-1, 0), (-1, 1), (0, -1), (0, 1), (1, -1),
          (1, 0), (1, 1)] : List (ℤ × ℤ)).foldl
        (fun (st : List ℕ × (ℕ → Bool)) d =>
          if inb H W ((y : ℤ) + d.1) ((x : ℤ) + d.2) then
            let nidx := ((y : ℤ) + d.1).toNat * W + ((x : ℤ) + d.2).toNat
            if mask (nidx / W) (nidx % W) && ! st.2 nidx then
              (nidx :: st.1, updateB st.2 nidx true)
            else st
          else st)
        (rest, visited)
      ccExpand H W mask fuel push.1 push.2 (count + 1)

/-- `connected_components_metrics(mask, connectivity=8)` (metrics.py lines
21-74). -/
def connectedComponentsMetrics (H W : ℕ) (mask : ℕ → ℕ → Bool) :
    ConnectivityMetrics :=
  let totalLand := ((cells H W).filter fun p => mask p.1 p.2).length
  if totalLand = 0 then ⟨0, 0, 0, 0, 0⟩
  else
    let sizes := ((List.range (H * W)).foldl
      (fun (st : (ℕ → Bool) × List ℕ) f =>
        if mask (f / W) (f % W) && ! st.1 f then
          let res := ccExpand H W mask (H * W) [f] (updateB st.1 f true) 0
          (res.1, st.2 ++ [res.2])
        else st)
      (fun _ => false, [])).2
    let largest := sizes.foldl max 0
    ⟨sizes.length, largest, totalLand, (largest : ℚ) / (totalLand : ℚ),
      (totalLand : ℚ) / ((H * W : ℕ) : ℚ)⟩

/-- `LandMaskResult` (mask.py lines 15-22). -/
structure LandMaskResult where
  land_mask : ℕ → ℕ → Bool
  mask_potential : ℕ → ℕ → ℚ
  threshold : ℚ
  metrics : ConnectivityMetrics

/-- The rescaled mask potential of `generate_land_mask` (mask.py lines
41-70). -/
def maskPotential (W H : ℕ) (latticeP latticeWx latticeWy latticeF :
    ℕ → ℕ → ℕ → ℚ) (sqrtQ : ℚ → ℚ) (cfg : MaskConfig) : ℕ → ℕ → ℚ :=
  let base := fbmNoise W H latticeP 2 cfg.base_octaves
  let wx := fbmNoise W H latticeWx 1 cfg.warp_octaves
  let wy := fbmNoise W H latticeWy 1 cfg.warp_octaves
  let warped := warpField H W base wx wy
    (cfg.warp_strength_px * (1 + cfg.fragmentation))
  let frag := fbmNoise W H latticeF 4 3
  let pot0 : ℕ → ℕ → ℚ := fun y x =>
    let nx := ((x : ℚ) / (max (W - 1) 1 : ℕ)) * 2 - 1
    let ny := ((y : ℚ) / (max (H - 1) 1 : ℕ)) * 2 - 1
    warped y x * (62 / 100) +
      min 1 (max 0 (1 - sqrtQ ((nx * (85 / 100)) ^ 2 + ny ^ 2))) *
        cfg.coast_bias_strength +
      (1 - |ny| * (35 / 100)) * (18 / 100) +
      frag y x * cfg.fragmentation * (20 / 100)
  let low := percentileQ (maskedVals H W (fun _ _ => true) pot0) 2
  let high := percentileQ (maskedVals H W (fun _ _ => true) pot0) 98
  let scale := max (high - low) (1 / 1000000)
  fun y x => min 1 (max 0 ((pot0 y x - low) / scale))

/-- `target_land` (mask.py lines 72-76). -/
def maskTargetLand (cfg : MaskConfig) : ℚ :=
  min cfg.max_land_fraction
    (max cfg.min_land_fraction
      (cfg.target_land_fraction + (cfg.fragmentation - 1 / 5) * (1 / 5)))

/-- State of the threshold-relaxation loop. -/
structure MaskState where
  threshold : ℚ
  land : ℕ → ℕ → Bool
  metrics : ConnectivityMetrics

/-- One relaxation attempt (mask.py lines 83-91); once dominance is reached
the remaining attempts leave the state unchanged, matching the `break`. -/
def maskAttempt (W H : ℕ) (potential : ℕ → ℕ → ℚ) (cfg : MaskConfig)
    (st : MaskState) (attempt : ℕ) : MaskState :=
  if cfg.dominant_land_ratio ≤ st.metrics.largest_land_ratio then st
  else
    ⟨st.threshold - cfg.threshold_relaxation * (attempt + 1),
      smoothMask H W (fun y x => decide
        (st.threshold - cfg.threshold_relaxation * (attempt + 1) ≤
          potential y x)) (cfg.smooth_iterations + 1),
      connectedComponentsMetrics H W
        (smoothMask H W (fun y x => decide
          (st.threshold - cfg.threshold_relaxation * (attempt + 1) ≤
            potential y x)) (cfg.smooth_iterations + 1))⟩

/-- `generate_land_mask(width, height, rng, config=…)` (mask.py lines
25-98). -/
def generateLandMask (W H : ℕ) (latticeP latticeWx latticeWy latticeF :
    ℕ → ℕ → ℕ → ℚ) (sqrtQ : ℚ → ℚ) (cfg : MaskConfig) : LandMaskResult :=
  let potential := maskPotential W H latticeP latticeWx latticeWy latticeF
    sqrtQ cfg
  let threshold := percentileQ (maskedVals H W (fun _ _ => true) potential)
    ((1 - maskTargetLand cfg) * 100)
  let land := smoothMask H W (fun y x => decide (threshold ≤ potential y x))
    cfg.smooth_iterations
  let st0 : MaskState := ⟨threshold, land, connectedComponentsMetrics H W land⟩
  let st :=
    if cfg.dominant_land_ratio ≤ st0.metrics.largest_land_ratio then st0
    else (List.range 3).foldl (maskAttempt W H potential cfg) st0
  ⟨st.land, potential, st.threshold, st.metrics⟩

lemma majorityFilter_one_zero (m : ℕ → ℕ → Bool) :
    majorityFilter 1 1 m 0 0 = false := by
  unfold majorityFilter
  cases h : m 0 0 <;> simp [inb, h]

lemma smoothMask_one_empty (m : ℕ → ℕ → Bool) (n : ℕ) :
    smoothMask 1 1 m (n + 1) 0 0 = false := by
  unfold smoothMask
  rw [Function.iterate_succ_apply']
  exact majorityFilter_one_zero _

lemma ccm_one_empty (m : ℕ → ℕ → Bool) (h : m 0 0 = false) :
    connectedComponentsMetrics 1 1 m = ⟨0, 0, 0, 0, 0⟩ := by
  have hc : cells 1 1 = [(0, 0)] := rfl
  unfold connectedComponentsMetrics
  rw [hc]
  simp [h]

lemma maskState_mk_metrics (t : ℚ) (l : ℕ → ℕ → Bool)
    (m : ConnectivityMetrics) : (⟨t, l, m⟩ : MaskState).metrics = m := rfl

lemma maskAttempt_one_empty (potential : ℕ → ℕ → ℚ) (st : MaskState)
    (h : st.metrics = ⟨0, 0, 0, 0, 0⟩) (a : ℕ) :
    (maskAttempt 1 1 potential defaultMaskConfig st a).metrics =
      ⟨0, 0, 0, 0, 0⟩ := by
  unfold maskAttempt
  rw [h]
  have hn : ¬(defaultMaskConfig.dominant_land_ratio ≤
      (⟨0, 0, 0, 0, 0⟩ : ConnectivityMetrics).largest_land_ratio) := by
    norm_num [defaultMaskConfig]
  rw [if_neg hn, maskState_mk_metrics]
  exact ccm_one_empty _ (smoothMask_one_empty _ _)

/-- At width 1 and height 1, for every RNG lattice stream and every
square-root function, `generate_land_mask` under the default `MaskConfig`
returns an empty land mask: one majority-filter pass empties any 1×1 mask
and at least one smoothing pass always runs. -/
lemma generate_land_mask_one_one_empty
    (latP latWx latWy latF : ℕ → ℕ → ℕ → ℚ) (sqrtQ : ℚ → ℚ) :
    (generateLandMask 1 1 latP latWx latWy latF sqrtQ
        defaultMaskConfig).metrics.land_fraction = 0 ∧
    (generateLandMask 1 1 latP latWx latWy latF sqrtQ
        defaultMaskConfig).metrics.largest_land_ratio = 0 ∧
    ¬(defaultMaskConfig.min_land_fraction ≤
        (generateLandMask 1 1 latP latWx latWy latF sqrtQ
          defaultMaskConfig).metrics.land_fraction) ∧
    ¬(defaultMaskConfig.dominant_land_ratio ≤
        (generateLandMask 1 1 latP latWx latWy latF sqrtQ
          defaultMaskConfig).metrics.largest_land_ratio) := by
  have hfinal : (generateLandMask 1 1 latP latWx latWy latF sqrtQ
      defaultMaskConfig).metrics = ⟨0, 0, 0, 0, 0⟩ := by
    simp only [generateLandMask]
    have h0 : connectedComponentsMetrics 1 1
        (smoothMask 1 1 (fun y x => decide
          (percentileQ (maskedVals 1 1 (fun _ _ => true)
              (maskPotential 1 1 latP latWx latWy latF sqrtQ
                defaultMaskConfig))
            ((1 - maskTargetLand defaultMaskConfig) * 100) ≤
            maskPotential 1 1 latP latWx latWy latF sqrtQ
              defaultMaskConfig y x))
          defaultMaskConfig.smooth_iterations) = ⟨0, 0, 0, 0, 0⟩ :=
      ccm_one_empty _ (smoothMask_one_empty _ _)
    rw [h0]
    have hn : ¬(defaultMaskConfig.dominant_land_ratio ≤
        (⟨0, 0, 0, 0, 0⟩ : ConnectivityMetrics).largest_land_ratio) := by
      norm_num [defaultMaskConfig]
    rw [if_neg hn]
    exact foldl_preserve
      (fun st a h => maskAttempt_one_empty _ st h a) (List.range 3) _ rfl
  refine ⟨by rw [hfinal], by rw [hfinal], ?_, ?_⟩ <;>
    rw [hfinal] <;> norm_num [defaultMaskConfig]

/-- **C4 (counterexample)**: at width 1 and height 1 with the all-zero RNG
lattices and the identity square-root, `generate_land_mask` under the
default `MaskConfig` returns land fraction 0 (below
`min_land_fraction = 0.15`) and largest-component ratio 0 (below
`dominant_land_ratio = 0.55`): the LandMask invariant fails; the proof
instantiates a lemma holding for every RNG stream and square root. -/
theorem generate_land_mask_invariant_counterexample :
    (generateLandMask 1 1 (fun _ _ _ => 0) (fun _ _ _ => 0) (fun _ _ _ => 0)
        (fun _ _ _ => 0) (fun q => q)
        defaultMaskConfig).metrics.land_fraction = 0 ∧
    (generateLandMask 1 1 (fun _ _ _ => 0) (fun _ _ _ => 0) (fun _ _ _ => 0)
        (fun _ _ _ => 0) (fun q => q)
        defaultMaskConfig).metrics.largest_land_ratio = 0 ∧
    ¬(defaultMaskConfig.min_land_fraction ≤
        (generateLandMask 1 1 (fun _ _ _ => 0) (fun _ _ _ => 0)
          (fun _ _ _ => 0) (fun _ _ _ => 0) (fun q => q)
          defaultMaskConfig).metrics.land_fraction) ∧
    ¬(defaultMaskConfig.dominant_land_ratio ≤
        (generateLandMask 1 1 (fun _ _ _ => 0) (fun _ _ _ => 0)
          (fun _ _ _ => 0) (fun _ _ _ => 0) (fun q => q)
          defaultMaskConfig).metrics.largest_land_ratio) :=
  generate_land_mask_one_one_empty (fun _ _ _ => 0) (fun _ _ _ => 0)
    (fun _ _ _ => 0) (fun _ _ _ => 0) (fun q => q)

lemma maskAttempt_metrics (W H : ℕ) (potential : ℕ → ℕ → ℚ)
    (cfg : MaskConfig) (st : MaskState)
    (h : st.metrics = connectedComponentsMetrics H W st.land) (a : ℕ) :
    (maskAttempt W H potential cfg st a).metrics =
      connectedComponentsMetrics H W (maskAttempt W H potential cfg st a).land := by
  unfold maskAttempt
  split
  · exact h
  · rfl

/-- **C4 (amended)**: the metrics returned by `generate_land_mask` are
exactly the 8-connected component metrics of the returned land mask, and the
clipped target land fraction lies in
`[min_land_fraction, max_land_fraction]` whenever that interval is
nonempty; the LandMask invariant itself (dominance and fraction bounds on
the realised mask) is not guaranteed, since the relaxation loop gives up
after three attempts. -/
theorem generate_land_mask_metrics_consistent
    (W H : ℕ) (latP latWx latWy latF : ℕ → ℕ → ℕ → ℚ) (sqrtQ : ℚ → ℚ)
    (cfg : MaskConfig)
    (hmm : cfg.min_land_fraction ≤ cfg.max_land_fraction) :
    (generateLandMask W H latP latWx latWy latF sqrtQ cfg).metrics =
      connectedComponentsMetrics H W
        (generateLandMask W H latP latWx latWy latF sqrtQ cfg).land_mask ∧
    cfg.min_land_fraction ≤ maskTargetLand cfg ∧
    maskTargetLand cfg ≤ cfg.max_land_fraction := by
  refine ⟨?_, le_min hmm (le_max_left _ _), min_le_left _ _⟩
  simp only [generateLandMask]
  split
  · rfl
  · exact foldl_preserve
      (fun st a h => maskAttempt_metrics W H _ cfg st h a) (List.range 3) _ rfl

/-- Witness for `generate_land_mask_metrics_consistent` at the default
configuration. -/
theorem generate_land_mask_metrics_consistent_witness :
    defaultMaskConfig.min_land_fraction ≤
        defaultMaskConfig.max_land_fraction ∧
    ((generateLandMask 2 2 (fun _ _ _ => 0) (fun _ _ _ => 0)
        (fun _ _ _ => 0) (fun _ _ _ => 0) (fun q => q)
        defaultMaskConfig).metrics =
      connectedComponentsMetrics 2 2
        (generateLandMask 2 2 (fun _ _ _ => 0) (fun _ _ _ => 0)
          (fun _ _ _ => 0) (fun _ _ _ => 0) (fun q => q)
          defaultMaskConfig).land_mask ∧
    defaultMaskConfig.min_land_fraction ≤ maskTargetLand defaultMaskConfig ∧
    maskTargetLand defaultMaskConfig ≤
        defaultMaskConfig.max_land_fraction) :=
  ⟨by norm_num [defaultMaskConfig],
    generate_land_mask_metrics_consistent 2 2 _ _ _ _ _ _
      (by norm_num [defaultMaskConfig])⟩

/-! ### Seed parsing and hashing (`terrain/seed.py`)

Strings are embedded as lists of ASCII codes (`List ℕ`); `seed_hash64`'s
BLAKE2b (digest_size 8, person `terrainm0`) is implemented bit-exactly over
`ℕ` with explicit `% 2 ^ 64`. -/

/-- ASCII uppercase letter test. -/
def isUpperA (c : ℕ) : Bool := decide (65 ≤ c ∧ c ≤ 90)

/-- ASCII lowercase letter test. -/
def isLowerA (c : ℕ) : Bool := decide (97 ≤ c ∧ c ≤ 122)

/-- ASCII letter test (`[A-Za-z]`). -/
def isAlphaA (c : ℕ) : Bool := isUpperA c || isLowerA c

/-- ASCII whitespace, as stripped by Python `str.strip()`. -/
def isSpaceA (c : ℕ) : Bool :=
  decide (c = 32 ∨ c = 9 ∨ c = 10 ∨ c = 11 ∨ c = 12 ∨ c = 13)

/-- Python `str.lower()` on one ASCII code. -/
def toLowerA (c : ℕ) : ℕ := if isUpperA c then c + 32 else c

/-- Python `str.strip()` on ASCII codes. -/
def pyStrip (l : List ℕ) : List ℕ :=
  ((l.dropWhile isSpaceA).reverse.dropWhile isSpaceA).reverse

/-- ASCII codes of a Lean string literal. -/
def codes (s : String) : List ℕ := s.toList.map Char.toNat

/-- `ADJECTIVES` (seed.py lines 9-87). -/
def ADJECTIVES : List String :=
  ["ancient", "ashen", "autumn", "bitter", "black", "bleak", "blue", "bold",
   "brisk", "bronze", "calm", "clear", "cold", "crimson", "dark", "dawn",
   "deep", "dusty", "eager", "ember", "faded", "fierce", "frozen", "gentle",
   "golden", "grand", "gray", "green", "grim", "hollow", "icy", "iron",
   "jagged", "keen", "lively", "lone", "long", "lunar", "misty", "mossy",
   "noble", "north", "old", "pale", "pine", "primal", "quiet", "rapid",
   "red", "remote", "rough", "royal", "rugged", "sable", "scarlet",
   "silent", "silver", "smoky", "snowy", "solid", "south", "spare",
   "spring", "stone", "storm", "strong", "summer", "swift", "timber",
   "vast", "verdant", "warm", "west", "white", "wild", "winter", "young"]

/-- `NOUNS` (seed.py lines 89-163). -/
def NOUNS : List String :=
  ["anchor", "arch", "atlas", "basin", "beacon", "bend", "bluff", "bridge",
   "brook", "cairn", "canyon", "cape", "cavern", "citadel", "cliff",
   "coast", "cove", "crown", "delta", "dune", "fall", "fang", "field",
   "fjord", "forge", "forest", "gate", "glade", "gorge", "grove", "harbor",
   "haven", "height", "hill", "hollow", "isle", "keep", "knoll", "lagoon",
   "lake", "march", "marsh", "mesa", "moor", "mount", "peak", "plain",
   "point", "range", "reach", "reef", "rest", "ridge", "river", "shore",
   "sound", "spire", "spring", "steppe", "strait", "summit", "tarn",
   "thicket", "vale", "valley", "vault", "vista", "watch", "water", "way",
   "wilds", "wood", "yard"]

/-- `ADJECTIVE_SET` as code lists. -/
def adjCodes : List (List ℕ) := ADJECTIVES.map codes

/-- `NOUN_SET` as code lists. -/
def nounCodes : List (List ℕ) := NOUNS.map codes

/-- Scanner equivalent to `_CAMEL_RE.findall`
(`[A-Z]+(?=[A-Z][a-z]|$)|[A-Z]?[a-z]+`, leftmost with greedy backtracking):
a lowercase run is a token; an uppercase run reaching the end of the string
is a token; an uppercase run of length u followed by a lowercase letter
contributes its first u-1 letters when u is at least 2, else the single
uppercase letter joins the following lowercase run. Fuel decreases once per
emitted token or skipped character. -/
def camelTokensF : ℕ → List ℕ → List (List ℕ)
  | 0, _ => []
  | _ + 1, [] => []
  | fuel + 1, c :: rest =>
      if isLowerA c then
        ((c :: rest).takeWhile isLowerA) ::
          camelTokensF fuel ((c :: rest).dropWhile isLowerA)
      else if isUpperA c then
        match (c :: rest).dropWhile isUpperA with
        | [] => [(c :: rest)]
        | d :: rest2 =>
            if isLowerA d then
              if 2 ≤ ((c :: rest).takeWhile isUpperA).length then
                (((c :: rest).takeWhile isUpperA).take
                    (((c :: rest).takeWhile isUpperA).length - 1)) ::
                  camelTokensF fuel
                    ((((c :: rest).takeWhile isUpperA).drop
                        (((c :: rest).takeWhile isUpperA).length - 1)) ++
                      d :: rest2)
              else
                (((c :: rest).takeWhile isUpperA) ++
                    (d :: rest2).takeWhile isLowerA) ::
                  camelTokensF fuel ((d :: rest2).dropWhile isLowerA)
            else camelTokensF fuel (d :: rest2)
      else camelTokensF fuel rest

/-- `_CAMEL_RE.findall(raw)`. -/
def camelTokens (l : List ℕ) : List (List ℕ) := camelTokensF l.length l

/-- `_split_camel_case(raw)` (seed.py lines 242-248). -/
def splitCamelCase (raw : List ℕ) : Option (List ℕ × List ℕ) :=
  match camelTokens raw with
  | [p1, p2] =>
      if p1 ++ p2 = raw then some (p1.map toLowerA, p2.map toLowerA)
      else none
  | _ => none

/-- `_split_concatenated(raw_lower)` (seed.py lines 251-258): candidate
split positions `range(2, len(raw_lower) - 1)`. -/
def splitConcatenated (rawLower : List ℕ) : List (List ℕ × List ℕ) :=
  (List.range' 2 (rawLower.length - 3)).filterMap fun i =>
    if rawLower.take i ∈ adjCodes ∧ rawLower.drop i ∈ nounCodes then
      some (rawLower.take i, rawLower.drop i)
    else none

/-- Right rotation of a 64-bit word. -/
def rotr64 (x n : ℕ) : ℕ := (x >>> n) ||| ((x <<< (64 - n)) % 2 ^ 64)

/-- BLAKE2b initialisation vector (RFC 7693). -/
def BLAKE2B_IV : List ℕ :=
  [0x6a09e667f3bcc908, 0xbb67ae8584caa73b, 0x3c6ef372fe94f82b,
   0xa54ff53a5f1d36f1, 0x510e527fade682d1, 0x9b05688c2b3e6c1f,
   0x1f83d9abfb41bd6b, 0x5be0cd19137e2179]

/-- BLAKE2b message schedule (RFC 7693). -/
def BLAKE2B_SIGMA : List (List ℕ) :=
  [[0, 1, 2, 3, 4, 5, 6, 7, 8, 9, 10, 11, 12, 13, 14, 15],
   [14, 10, 4, 8, 9, 15, 13, 6, 1, 12, 0, 2, 11, 7, 5, 3],
   [11, 8, 12, 0, 5, 2, 15, 13, 10, 14, 3, 6, 7, 1, 9, 4],
   [7, 9, 3, 1, 13, 12, 11, 14, 2, 6, 5, 10, 4, 0, 15, 8],
   [9, 0, 5, 7, 2, 4, 10, 15, 14, 1, 11, 12, 6, 8, 3, 13],
   [2, 12, 6, 10, 0, 11, 8, 3, 4, 13, 7, 5, 15, 14, 1, 9],
   [12, 5, 1, 15, 14, 13, 4, 10, 0, 7, 6, 3, 9, 2, 8, 11],
   [13, 11, 7, 14, 12, 1, 3, 9, 5, 0, 15, 4, 8, 6, 2, 10],
   [6, 15, 14, 9, 11, 3, 0, 8, 12, 2, 13, 7, 1, 4, 10, 5],
   [10, 2, 8, 4, 7, 6, 1, 5, 15, 11, 9, 14, 3, 12, 13, 0]]

/-- List lookup with default 0. -/
def lget (l : List ℕ) (i : ℕ) : ℕ := l.getD i 0

/-- The BLAKE2b G mixing function on the 16-word state `v`. -/
def blakeG (v : List ℕ) (a b c d x y : ℕ) : List ℕ :=
  let v := v.set a ((lget v a + lget v b + x) % 2 ^ 64)
  let v := v.set d (rotr64 (Nat.xor (lget v d) (lget v a)) 32)
  let v := v.set c ((lget v c + lget v d) % 2 ^ 64)
  let v := v.set b (rotr64 (Nat.xor (lget v b) (lget v c)) 24)
  let v := v.set a ((lget v a + lget v b + y) % 2 ^ 64)
  let v := v.set d (rotr64 (Nat.xor (lget v d) (lget v a)) 16)
  let v := v.set c ((lget v c + lget v d) % 2 ^ 64)
  v.set b (rotr64 (Nat.xor (lget v b) (lget v c)) 63)

/-- One BLAKE2b round with schedule row `s` and message words `m`. -/
def blakeRound (v m s : List ℕ) : List ℕ :=
  let v := blakeG v 0 4 8 12 (lget m (lget s 0)) (lget m (lget s 1))
  let v := blakeG v 1 5 9 13 (lget m (lget s 2)) (lget m (lget s 3))
  let v := blakeG v 2 6 10 14 (lget m (lget s 4)) (lget m (lget s 5))
  let v := blakeG v 3 7 11 15 (lget m (lget s 6)) (lget m (lget s 7))
  let v := blakeG v 0 5 10 15 (lget m (lget s 8)) (lget m (lget s 9))
  let v := blakeG v 1 6 11 12 (lget m (lget s 10)) (lget m (lget s 11))
  let v := blakeG v 2 7 8 13 (lget m (lget s 12)) (lget m (lget s 13))
  blakeG v 3 4 9 14 (lget m (lget s 14)) (lget m (lget s 15))

/-- Little-endian word value of a byte list. -/
def wordLE (bytes : List ℕ) : ℕ := bytes.foldr (fun b acc => b + 256 * acc) 0

/-- The 16 little-endian message words of a 128-byte block. -/
def words16 (block : List ℕ) : List ℕ :=
  (List.range 16).map fun j => wordLE ((block.drop (8 * j)).take 8)

/-- The BLAKE2b compression function F (RFC 7693) with byte counter `t`. -/
def blake2bCompress (h m : List ℕ) (t : ℕ) (last : Bool) : List ℕ :=
  let v := h ++ BLAKE2B_IV
  let v := v.set 12 (Nat.xor (lget v 12) (t % 2 ^ 64))
  let v := v.set 13 (Nat.xor (lget v 13) (t / 2 ^ 64 % 2 ^ 64))
  let v := if last then v.set 14 (Nat.xor (lget v 14) (2 ^ 64 - 1)) else v
  let v := (List.range 12).foldl
    (fun v r => blakeRound v m (BLAKE2B_SIGMA.getD (r % 10) [])) v
  (List.range 8).map fun i =>
    Nat.xor (Nat.xor (lget h i) (lget v i)) (lget v (i + 8))

/-- BLAKE2b parameter block for `digest_size=8`, no key, fanout 1, depth 1,
personalisation `b"terrainm0"` zero-padded to 16 bytes. -/
def blake2bParamBytes : List ℕ :=
  [8, 0, 1, 1] ++ List.replicate 4 0 ++ List.replicate 8 0 ++
    [0, 0] ++ List.replicate 14 0 ++ List.replicate 16 0 ++
    (codes ("terrainm0") ++ List.replicate 7 0)

/-- BLAKE2b initial state: IV xor parameter-block words. -/
def blake2bH0 : List ℕ :=
  (List.range 8).map fun i =>
    Nat.xor (lget BLAKE2B_IV i) (wordLE ((blake2bParamBytes.drop (8 * i)).take 8))

/-- The 8 digest bytes of BLAKE2b-64 (`digest_size=8`,
`person=b"terrainm0"`) of `msg`. -/
def blake2b8 (msg : List ℕ) : List ℕ :=
  let nblocks := max 1 ((msg.length + 127) / 128)
  let hfin := (List.range nblocks).foldl
    (fun h i =>
      blake2bCompress h
        (words16 (((msg.drop (128 * i)).take 128) ++
          List.replicate (128 - ((msg.drop (128 * i)).take 128).length) 0))
        (if i = nblocks - 1 then msg.length else 128 * (i + 1))
        (decide (i = nblocks - 1)))
    blake2bH0
  (List.range 8).map fun i => lget hfin 0 / 256 ^ i % 256

/-- `seed_hash64(seed)` (seed.py lines 195-203): big-endian integer of the
8-byte BLAKE2b digest of the ASCII seed. -/
def seed_hash64 (seed : List ℕ) : ℕ :=
  (blake2b8 seed).foldl (fun acc b => acc * 256 + b) 0

/-- `canonical_seed(adjective, noun)` (seed.py lines 189-192). -/
def canonical_seed (adjective noun : List ℕ) : List ℕ := adjective ++ noun

/-- `SeedParseError` reasons (message text elided). -/
inductive SeedParseError where
  | emptySeed
  | nonAlpha
  | ambiguous (options : List (List ℕ × List ℕ))
  | noMatch
deriving DecidableEq

/-- `ParsedSeed` (seed.py lines 178-186). -/
structure ParsedSeed where
  original : List ℕ
  adjective : List ℕ
  noun : List ℕ
  canonical : List ℕ
  seed_hash : ℕ
deriving DecidableEq

/-- The lowercase-concatenation fallback of `parse_seed` (seed.py lines
228-239). -/
def parseFallback (raw : List ℕ) : Except SeedParseError ParsedSeed :=
  match splitConcatenated (raw.map toLowerA) with
  | [(adjective, noun)] =>
      .ok ⟨raw, adjective, noun, canonical_seed adjective noun,
        seed_hash64 (canonical_seed adjective noun)⟩
  | [] => .error .noMatch
  | ms => .error (.ambiguous (ms.take 4))

/-- `parse_seed(seed_text)` (seed.py lines 206-239). -/
def parse_seed (seed_text : List ℕ) : Except SeedParseError ParsedSeed :=
  if pyStrip seed_text = [] then .error .emptySeed
  else if (pyStrip seed_text).all isAlphaA then
    match splitCamelCase (pyStrip seed_text) with
    | some (adjective, noun) =>
        if adjective ∈ adjCodes ∧ noun ∈ nounCodes then
          .ok ⟨pyStrip seed_text, adjective, noun,
            canonical_seed adjective noun,
            seed_hash64 (canonical_seed adjective noun)⟩
        else parseFallback (pyStrip seed_text)
    | none => parseFallback (pyStrip seed_text)
  else .error .nonAlpha

instance {ε α : Type} [DecidableEq ε] [DecidableEq α] :
    DecidableEq (Except ε α) := fun a b =>
  match a, b with
  | .error e, .error f => decidable_of_iff (e = f) (by simp)
  | .ok x, .ok y => decidable_of_iff (x = y) (by simp)
  | .error _, .ok _ => isFalse (by simp)
  | .ok _, .error _ => isFalse (by simp)

set_option maxRecDepth 100000 in
lemma adjCodes_facts : ∀ w ∈ adjCodes, 2 ≤ w.length ∧ w.all isLowerA = true := by
  decide

set_option maxRecDepth 100000 in
lemma nounCodes_facts : ∀ w ∈ nounCodes, 2 ≤ w.length ∧ w.all isLowerA = true := by
  decide

set_option maxRecDepth 100000 in
lemma adjCodes_prefix_free :
    ∀ a ∈ adjCodes, ∀ b ∈ adjCodes, b.take a.length = a → a = b := by
  decide

lemma lower_not_upper {c : ℕ} (h : isLowerA c = true) : isUpperA c = false := by
  simp only [isLowerA, decide_eq_true_eq] at h
  simp only [isUpperA, decide_eq_false_iff_not]
  omega

lemma lower_not_space {c : ℕ} (h : isLowerA c = true) : isSpaceA c = false := by
  simp only [isLowerA, decide_eq_true_eq] at h
  simp only [isSpaceA, decide_eq_false_iff_not]
  omega

lemma lower_alpha {c : ℕ} (h : isLowerA c = true) : isAlphaA c = true := by
  simp [isAlphaA, h]

lemma dropWhile_space_of_lower :
    ∀ l : List ℕ, l.all isLowerA = true → l.dropWhile isSpaceA = l
  | [], _ => rfl
  | c :: t, h => by
      have hc : isLowerA c = true := by
        simp only [List.all_cons, Bool.and_eq_true] at h
        exact h.1
      simp [List.dropWhile_cons, lower_not_space hc]

lemma pyStrip_all_lower {l : List ℕ} (h : l.all isLowerA = true) :
    pyStrip l = l := by
  unfold pyStrip
  rw [dropWhile_space_of_lower l h,
    dropWhile_space_of_lower l.reverse (by rwa [List.all_reverse]),
    List.reverse_reverse]

lemma all_lower_alpha {l : List ℕ} (h : l.all isLowerA = true) :
    l.all isAlphaA = true := by
  rw [List.all_eq_true] at h ⊢
  exact fun x hx => lower_alpha (h x hx)

lemma map_toLowerA_all_lower :
    ∀ {l : List ℕ}, l.all isLowerA = true → l.map toLowerA = l
  | [], _ => rfl
  | c :: t, h => by
      rw [List.all_cons, Bool.and_eq_true] at h
      rw [List.map_cons, map_toLowerA_all_lower h.2]
      unfold toLowerA
      rw [lower_not_upper h.1]
      simp

lemma camelTokensF_nil (n : ℕ) : camelTokensF n [] = [] := by
  cases n <;> rfl

lemma camelTokens_all_lower {l : List ℕ} (h : l.all isLowerA = true)
    (hne : l ≠ []) : camelTokens l = [l] := by
  obtain ⟨c, t, rfl⟩ := List.exists_cons_of_ne_nil hne
  have hc : isLowerA c = true := by
    rw [List.all_cons, Bool.and_eq_true] at h
    exact h.1
  show camelTokensF (t.length + 1) (c :: t) = [c :: t]
  rw [camelTokensF, if_pos hc,
    List.takeWhile_eq_self_iff.mpr (fun x hx => List.all_eq_true.mp h x hx),
    List.dropWhile_eq_nil_iff.mpr (fun x hx => List.all_eq_true.mp h x hx),
    camelTokensF_nil]

lemma splitCamelCase_all_lower {l : List ℕ} (h : l.all isLowerA = true)
    (hne : l ≠ []) : splitCamelCase l = none := by
  unfold splitCamelCase
  rw [camelTokens_all_lower h hne]

lemma filterMap_single {β : Type} (f : ℕ → Option β) (k : ℕ) (b : β) :
    ∀ l : List ℕ, (∀ i ∈ l, f i = if i = k then some b else none) →
      l.count k = 1 → l.filterMap f = [b]
  | [], _, hc => by simp at hc
  | a :: t, hf, hc => by
      have hfa := hf a (List.mem_cons_self a t)
      by_cases hak : a = k
      · subst hak
        rw [if_pos rfl] at hfa
        rw [List.filterMap_cons_some hfa]
        have hct : t.count a = 0 := by
          rw [List.count_cons_self] at hc
          omega
        have hnil : t.filterMap f = [] := by
          rw [List.filterMap_eq_nil_iff]
          intro x hx
          have hfx := hf x (List.mem_cons_of_mem _ hx)
          rw [if_neg (fun hxa =>
            (List.count_eq_zero.mp hct) (by rw [← hxa]; exact hx))] at hfx
          exact hfx
        rw [hnil]
      · rw [if_neg hak] at hfa
        rw [List.filterMap_cons_none hfa]
        refine filterMap_single f k b t
          (fun i hi => hf i (List.mem_cons_of_mem _ hi)) ?_
        rwa [List.count_cons_of_ne (Ne.symm hak)] at hc

lemma splitConcatenated_mem {l : List ℕ} {pr : List ℕ × List ℕ}
    (h : pr ∈ splitConcatenated l) :
    pr.1 ∈ adjCodes ∧ pr.2 ∈ nounCodes ∧ pr.1 ++ pr.2 = l := by
  unfold splitConcatenated at h
  rw [List.mem_filterMap] at h
  obtain ⟨i, _, hf⟩ := h
  split_ifs at hf with hcond
  rw [Option.some_inj] at hf
  subst hf
  exact ⟨hcond.1, hcond.2, List.take_append_drop i l⟩

lemma splitConcatenated_unique (adjective noun : List ℕ)
    (ha : adjective ∈ adjCodes) (hn : noun ∈ nounCodes) :
    splitConcatenated (adjective ++ noun) = [(adjective, noun)] := by
  have hal := adjCodes_facts _ ha
  have hnl := nounCodes_facts _ hn
  have hlen : (adjective ++ noun).length = adjective.length + noun.length :=
    List.length_append _ _
  unfold splitConcatenated
  refine filterMap_single _ adjective.length (adjective, noun) _ ?_ ?_
  · intro i hi
    rw [List.mem_range'_1, hlen] at hi
    by_cases hik : i = adjective.length
    · subst hik
      rw [List.take_left, List.drop_left, if_pos ⟨ha, hn⟩, if_pos rfl]
    · rw [if_neg hik, if_neg]
      rintro ⟨hta, -⟩
      have hlti : i < (adjective ++ noun).length := by rw [hlen]; omega
      have hlen_take : ((adjective ++ noun).take i).length = i := by
        rw [List.length_take, hlen]
        omega
      have hpi : (adjective ++ noun).take i <+: (adjective ++ noun) :=
        List.take_prefix _ _
      have hpa : adjective <+: (adjective ++ noun) :=
        List.prefix_append _ _
      rcases List.prefix_or_prefix_of_prefix hpi hpa with hc | hc
      · have heq := List.prefix_iff_eq_take.mp hc
        rw [hlen_take] at heq
        have := adjCodes_prefix_free _ hta _ ha (by rw [hlen_take]; exact heq.symm)
        have := congrArg List.length this
        rw [hlen_take] at this
        exact hik this
      · have heq := List.prefix_iff_eq_take.mp hc
        have := adjCodes_prefix_free _ ha _ hta heq.symm
        have := congrArg List.length this
        rw [hlen_take] at this
        exact hik this.symm
  · refine List.count_eq_one_of_mem (List.nodup_range' _ _) ?_
    rw [List.mem_range'_1, hlen]
    omega

lemma parse_canonical (adjective noun : List ℕ)
    (ha : adjective ∈ adjCodes) (hn : noun ∈ nounCodes) :
    parse_seed (adjective ++ noun) =
      Except.ok ⟨adjective ++ noun, adjective, noun, adjective ++ noun,
        seed_hash64 (adjective ++ noun)⟩ := by
  have hal := adjCodes_facts _ ha
  have hnl := nounCodes_facts _ hn
  have hall : (adjective ++ noun).all isLowerA = true := by
    rw [List.all_append, hal.2, hnl.2]
    rfl
  have hne : adjective ++ noun ≠ [] := by
    intro he
    rw [(List.append_eq_nil.mp he).1] at hal
    simp at hal
  unfold parse_seed
  rw [pyStrip_all_lower hall, if_neg hne, if_pos (all_lower_alpha hall),
    splitCamelCase_all_lower hall hne]
  show parseFallback (adjective ++ noun) = _
  unfold parseFallback
  rw [map_toLowerA_all_lower hall, splitConcatenated_unique _ _ ha hn]
  rfl

lemma parseFallback_ok_shape {raw : List ℕ} {p : ParsedSeed}
    (h : parseFallback raw = Except.ok p) :
    p.adjective ∈ adjCodes ∧ p.noun ∈ nounCodes ∧
      p.canonical = p.adjective ++ p.noun ∧
      p.seed_hash = seed_hash64 p.canonical := by
  unfold parseFallback at h
  split at h
  · rename_i adjective noun heq
    rw [Except.ok.injEq] at h
    subst h
    have hmem : (adjective, noun) ∈ splitConcatenated (raw.map toLowerA) := by
      rw [heq]
      exact List.mem_singleton_self _
    obtain ⟨h1, h2, -⟩ := splitConcatenated_mem hmem
    exact ⟨h1, h2, rfl, rfl⟩
  · simp at h
  · simp at h

lemma parse_ok_shape {input : List ℕ} {p : ParsedSeed}
    (h : parse_seed input = Except.ok p) :
    p.adjective ∈ adjCodes ∧ p.noun ∈ nounCodes ∧
      p.canonical = p.adjective ++ p.noun ∧
      p.seed_hash = seed_hash64 p.canonical := by
  unfold parse_seed at h
  split_ifs at h
  split at h
  · rename_i adjective noun heq
    split_ifs at h with hmem
    · rw [Except.ok.injEq] at h
      subst h
      exact ⟨hmem.1, hmem.2, rfl, rfl⟩
    · exact parseFallback_ok_shape h
  · exact parseFallback_ok_shape h

/-- `parse_seed("mistyforge")` as a concrete record; the hash value is the
blake2b-64 digest of `mistyforge` under person `terrainm0`. -/
def mistyParsed : ParsedSeed :=
  ⟨codes ("mistyforge"), codes ("misty"), codes ("forge"),
    codes ("mistyforge"), 15789219967651244386⟩

/-- `parse_seed("MISTYFORGE")` as a concrete record. -/
def mistyParsedUpper : ParsedSeed :=
  ⟨codes ("MISTYFORGE"), codes ("misty"), codes ("forge"),
    codes ("mistyforge"), 15789219967651244386⟩

/-- `parse_seed("MistyForge")` as a concrete record. -/
def mistyParsedCamel : ParsedSeed :=
  ⟨codes ("MistyForge"), codes ("misty"), codes ("forge"),
    codes ("mistyforge"), 15789219967651244386⟩

set_option maxRecDepth 100000 in
/-- **C8**: `parse_seed` is case-insensitive on valid seeds and
round-trips: `mistyforge`, `MISTYFORGE` and `MistyForge` all parse
successfully with identical canonical string and identical 64-bit seed
hash; and every `ParsedSeed` returned by `parse_seed` re-parses from its
canonical string to the same adjective, noun, canonical and hash, the hash
being the big-endian reading of the 8-byte BLAKE2b digest
(`person=b"terrainm0"`) of the canonical ASCII string, as computed by
`seed_hash64`. -/
theorem parse_seed_case_insensitive_roundtrip :
    (∃ p1 p2 p3 : ParsedSeed,
      parse_seed (codes ("mistyforge")) = Except.ok p1 ∧
      parse_seed (codes ("MISTYFORGE")) = Except.ok p2 ∧
      parse_seed (codes ("MistyForge")) = Except.ok p3 ∧
      p1.canonical = p2.canonical ∧ p2.canonical = p3.canonical ∧
      p1.seed_hash = p2.seed_hash ∧ p2.seed_hash = p3.seed_hash) ∧
    ∀ input p, parse_seed input = Except.ok p →
      parse_seed p.canonical =
        Except.ok ⟨p.canonical, p.adjective, p.noun, p.canonical,
          p.seed_hash⟩ ∧
      p.seed_hash = seed_hash64 p.canonical := by
  constructor
  · exact ⟨mistyParsed, mistyParsedUpper, mistyParsedCamel,
      by decide, by decide, by decide, rfl, rfl, rfl, rfl⟩
  · intro input p h
    obtain ⟨ha, hn, hcan, hh⟩ := parse_ok_shape h
    refine ⟨?_, hh⟩
    rw [hh, hcan]
    exact parse_canonical _ _ ha hn

set_option maxRecDepth 100000 in
/-- Witness for `parse_seed_case_insensitive_roundtrip`: the round-trip
conclusion instantiated at the concrete parse of `mistyforge`. -/
theorem parse_seed_roundtrip_witness :
    parse_seed (codes ("mistyforge")) = Except.ok mistyParsed ∧
    (parse_seed mistyParsed.canonical =
        Except.ok ⟨mistyParsed.canonical, mistyParsed.adjective,
          mistyParsed.noun, mistyParsed.canonical, mistyParsed.seed_hash⟩ ∧
      mistyParsed.seed_hash = seed_hash64 mistyParsed.canonical) :=
  ⟨by decide,
    parse_seed_case_insensitive_roundtrip.2 (codes ("mistyforge"))
      mistyParsed (by decide)⟩

end Spec2Proof
